import Mathlib

/-!
# A verification development for `raytracer.cpp`

The program's `float` arithmetic is embedded over an arbitrary linearly ordered field `F`
(rounding is not modelled).  The two transcendental library calls the program makes, `std::sqrt`
and `std::pow`, are parameters `sqrt : F → F` and `pow : F → F → F` of every definition that
reaches them, so every definition below is computable; the theorems instantiate `F` with `ℝ`,
`sqrt` with `Real.sqrt` and `pow` with `Real.rpow`.
-/

namespace Raytracer

/-! ## Vectors (`struct Vec3`) -/

/-- The struct `Vec3`: three components. -/
@[ext]
structure Vec3 (F : Type) where
  x : F
  y : F
  z : F

section Defs

variable {F : Type} [LinearOrderedField F]

/-- Default member initialisers `x = 0, y = 0, z = 0`. -/
instance : Zero (Vec3 F) := ⟨⟨0, 0, 0⟩⟩

/-- Indexing `operator[]`: `i == 0 ? x : (1 == i ? y : z)`. -/
def Vec3.get (v : Vec3 F) (i : Int) : F :=
  if i = 0 then v.x else if 1 = i then v.y else v.z

/-- Scaling `operator*(const float v)`. -/
def Vec3.smul (a : Vec3 F) (v : F) : Vec3 F := ⟨a.x * v, a.y * v, a.z * v⟩

/-- Dot product `operator*(const Vec3& v)`. -/
def Vec3.dot (a v : Vec3 F) : F := a.x * v.x + a.y * v.y + a.z * v.z

/-- Sum `operator+`. -/
instance : Add (Vec3 F) := ⟨fun a v => ⟨a.x + v.x, a.y + v.y, a.z + v.z⟩⟩

/-- Difference, the binary `operator-`. -/
instance : Sub (Vec3 F) := ⟨fun a v => ⟨a.x - v.x, a.y - v.y, a.z - v.z⟩⟩

/-- Negation, the unary `operator-`. -/
instance : Neg (Vec3 F) := ⟨fun a => ⟨-a.x, -a.y, -a.z⟩⟩

/-- Euclidean length `norm()`: `std::sqrt(x * x + y * y + z * z)`. -/
def Vec3.norm (sqrt : F → F) (a : Vec3 F) : F := sqrt (a.x * a.x + a.y * a.y + a.z * a.z)

/-- The method `normalized()`: `(*this) * (1.f / norm())`. -/
def Vec3.normalized (sqrt : F → F) (a : Vec3 F) : Vec3 F := a.smul (1 / a.norm sqrt)

/-! ## Scene data -/

/-- The struct `Material` (the array `albedo[4]` is a function on `Fin 4`). -/
structure Material (F : Type) where
  refractive_index : F
  albedo : Fin 4 → F
  diffuse_color : Vec3 F
  specular_exponent : F

/-- Default member initialisers of `Material`. -/
def Material.default : Material F :=
  { refractive_index := 1, albedo := ![2, 0, 0, 0], diffuse_color := ⟨0, 0, 0⟩,
    specular_exponent := 0 }

/-- The struct `Sphere`. -/
structure Sphere (F : Type) where
  center : Vec3 F
  radius : F
  material : Material F

def ivory : Material F := ⟨1.0, ![0.9, 0.5, 0.1, 0.0], ⟨0.4, 0.4, 0.3⟩, 50⟩
def glass : Material F := ⟨1.5, ![0.0, 0.9, 0.1, 0.8], ⟨0.6, 0.7, 0.8⟩, 125⟩
def red_rubber : Material F := ⟨1.0, ![1.4, 0.3, 0.0, 0.0], ⟨0.3, 0.1, 0.1⟩, 10⟩
def mirror : Material F := ⟨1.0, ![0.0, 16.0, 0.8, 0.0], ⟨1.0, 1.0, 1.0⟩, 1425⟩
def gold : Material F := ⟨1.2, ![0.8, 0.6, 0.0, 0.0], ⟨0.7, 0.5, 0.2⟩, 80⟩
def emerald : Material F := ⟨1.4, ![0.1, 0.9, 0.0, 0.0], ⟨0.3, 0.8, 0.4⟩, 100⟩
def sapphire : Material F := ⟨1.6, ![0.0, 0.2, 0.8, 0.0], ⟨0.2, 0.5, 0.7⟩, 150⟩
def pearl : Material F := ⟨1.2, ![0.9, 0.9, 0.8, 0.0], ⟨0.8, 0.8, 0.7⟩, 20⟩
def ruby : Material F := ⟨1.7, ![0.6, 0.0, 0.1, 0.0], ⟨0.8, 0.2, 0.2⟩, 120⟩
def amethyst : Material F := ⟨1.5, ![0.3, 0.0, 0.8, 0.0], ⟨0.6, 0.1, 0.7⟩, 90⟩
def turquoise : Material F := ⟨1.4, ![0.0, 0.7, 0.8, 0.0], ⟨0.2, 0.5, 0.6⟩, 70⟩

/-- The array `spheres[]`. -/
def spheres : List (Sphere F) :=
  [ ⟨⟨-3, 0, -16⟩, 2, ivory⟩,
    ⟨⟨-1.0, -1.5, -12⟩, 2, emerald⟩,
    ⟨⟨1.5, -0.5, -18⟩, 3, sapphire⟩,
    ⟨⟨7, 5, -18⟩, 4, pearl⟩,
    ⟨⟨2, 2, -10⟩, 1, gold⟩,
    ⟨⟨0, 4, -15⟩, 1.5, ruby⟩,
    ⟨⟨-4, 1, -12⟩, 1.8, amethyst⟩,
    ⟨⟨6, -1, -14⟩, 2.5, turquoise⟩ ]

/-- The array `lights[]`. -/
def lights : List (Vec3 F) :=
  [ ⟨-20, 20, 20⟩, ⟨30, 50, -25⟩, ⟨30, 20, 30⟩ ]

/-! ## Reflection and refraction -/

/-- The function `reflect`: `I - N * 2.f * (I * N)`. -/
def reflect (I N : Vec3 F) : Vec3 F := I - ((N.smul 2).smul (I.dot N))

/-- The clamped cosine of `refract`: `-std::max(-1.f, std::min(1.f, I * N))`. -/
def refract_cosi (I N : Vec3 F) : F := -(max (-1) (min 1 (I.dot N)))

/-- The function `refract` (Snell's law), with its default argument `eta_i = 1.f` made explicit
at the call site.  The recursive call swaps the indices and negates the normal. -/
def refract (sqrt : F → F) (I N : Vec3 F) (eta_t eta_i : F) : Vec3 F :=
  let cosi := refract_cosi I N
  if h : cosi < 0 then
    refract sqrt I (-N) eta_i eta_t
  else
    let eta := eta_i / eta_t
    let k := 1 - eta * eta * (1 - cosi * cosi)
    if k < 0 then ⟨1, 0, 0⟩ else I.smul eta + N.smul (eta * cosi - sqrt k)
termination_by (if refract_cosi I N < 0 then 1 else 0 : Nat)
decreasing_by
  have hdot : I.dot (-N) = -(I.dot N) := by
    show I.x * (-N.x) + I.y * (-N.y) + I.z * (-N.z) = -(I.x * N.x + I.y * N.y + I.z * N.z)
    ring
  have h1 : refract_cosi I N < 0 := h
  have h2 : ¬ (refract_cosi I (-N) < 0) := by
    unfold refract_cosi at h1 ⊢
    rw [hdot]
    simp only [max_def, min_def] at h1 ⊢
    split_ifs at h1 ⊢ <;> linarith
  simp [h2, h1]

/-! ## Intersections -/

/-- The function `ray_sphere_intersect`; the result is the pair
`[intersection found, distance]`. -/
def ray_sphere_intersect (sqrt : F → F) (orig dir : Vec3 F) (s : Sphere F) : Bool × F :=
  let L := s.center - orig
  let tca := L.dot dir
  let d2 := L.dot L - tca * tca
  if d2 > s.radius * s.radius then (false, 0)
  else
    let thc := sqrt (s.radius * s.radius - d2)
    let t0 := tca - thc
    let t1 := tca + thc
    if t0 > 0.001 then (true, t0)
    else if t1 > 0.001 then (true, t1)
    else (false, 0)

/-- The loop state of `scene_intersect`: the locals `nearest_dist`, `pt`, `N`, `material`. -/
structure Nearest (F : Type) where
  nearest_dist : F
  pt : Vec3 F
  N : Vec3 F
  material : Material F

variable [FloorRing F]

/-- The conversion `int(...)` of a floating value: truncation toward zero. -/
def int_of (v : F) : Int := if 0 ≤ v then ⌊v⌋ else ⌈v⌉

/-- The tile colour of the checkerboard at `pt`:
`(int(.5 * pt.x + 1000) + int(.5 * pt.z)) & 1 ? Vec3{.3, .3, .3} : Vec3{.3, .2, .1}`. -/
def checker_color (pt : Vec3 F) : Vec3 F :=
  if (int_of (0.5 * pt.x + 1000) + int_of (0.5 * pt.z)) % 2 ≠ 0 then ⟨0.3, 0.3, 0.3⟩
  else ⟨0.3, 0.2, 0.1⟩

/-- The first block of `scene_intersect`: the locals after the checkerboard test. -/
def scene_plane (orig dir : Vec3 F) : Nearest F :=
  let init : Nearest F := ⟨1e10, 0, 0, Material.default⟩
  if |dir.y| > 0.001 then
    let d := -(orig.y + 4) / dir.y
    let p := orig + dir.smul d
    if d > 0.001 ∧ d < init.nearest_dist ∧ |p.x| < 10 ∧ p.z < -10 ∧ p.z > -30 then
      { nearest_dist := d, pt := p, N := ⟨0, 1, 0⟩,
        material := { (Material.default : Material F) with diffuse_color := checker_color p } }
    else init
  else init

/-- One iteration of the loop `for (const Sphere &s : spheres)` of `scene_intersect`. -/
def scene_sphere (sqrt : F → F) (orig dir : Vec3 F) (st : Nearest F) (s : Sphere F) :
    Nearest F :=
  let r := ray_sphere_intersect sqrt orig dir s
  if r.1 = false ∨ r.2 > st.nearest_dist then st
  else
    let pt := orig + dir.smul r.2
    { nearest_dist := r.2, pt := pt, N := (pt - s.center).normalized sqrt,
      material := s.material }

/-- The locals of `scene_intersect` at its `return`. -/
def scene_nearest (sqrt : F → F) (orig dir : Vec3 F) : Nearest F :=
  (spheres : List (Sphere F)).foldl (scene_sphere sqrt orig dir) (scene_plane orig dir)

/-- The function `scene_intersect`: `{nearest_dist < 1000, pt, N, material}`. -/
def scene_intersect (sqrt : F → F) (orig dir : Vec3 F) :
    Bool × Vec3 F × Vec3 F × Material F :=
  let st := scene_nearest sqrt orig dir
  (decide (st.nearest_dist < 1000), st.pt, st.N, st.material)

/-! ## Shading -/

/-- One iteration of the loop `for (const Vec3 &light : lights)` of `cast_ray`, on the pair
`(diffuse_light_intensity, specular_light_intensity)`. -/
def light_step (sqrt : F → F) (pow : F → F → F) (dir point N : Vec3 F) (material : Material F)
    (acc : F × F) (light : Vec3 F) : F × F :=
  let light_dir := (light - point).normalized sqrt
  let sh := scene_intersect sqrt point light_dir
  if sh.1 = true ∧ (sh.2.1 - point).norm sqrt < (light - point).norm sqrt then acc
  else
    (acc.1 + max 0 (light_dir.dot N),
     acc.2 + pow (max 0 ((-(reflect (-light_dir) N)).dot dir)) material.specular_exponent)

/-- The tail of `cast_ray` after its two recursive calls: the light loop and the `return`. -/
def shade (sqrt : F → F) (pow : F → F → F) (dir point N : Vec3 F) (material : Material F)
    (reflect_color refract_color : Vec3 F) : Vec3 F :=
  let li := (lights : List (Vec3 F)).foldl (light_step sqrt pow dir point N material) (0, 0)
  ((material.diffuse_color.smul li.1).smul (material.albedo 0)
    + ((⟨1, 1, 1⟩ : Vec3 F).smul li.2).smul (material.albedo 1)
    + reflect_color.smul (material.albedo 2))
    + refract_color.smul (material.albedo 3)

/-- The background colour `{0.2, 0.7, 0.8}`. -/
def background : Vec3 F := ⟨0.2, 0.7, 0.8⟩

/-- The function `cast_ray`.  The recursion is on the measure `5 - depth`. -/
def cast_ray (sqrt : F → F) (pow : F → F → F) (orig dir : Vec3 F) (depth : Int) : Vec3 F :=
  let r := scene_intersect sqrt orig dir
  if h : depth > 4 ∨ r.1 = false then background
  else
    let reflect_dir := (reflect dir r.2.2.1).normalized sqrt
    let refract_dir := (refract sqrt dir r.2.2.1 r.2.2.2.refractive_index 1).normalized sqrt
    let reflect_color := cast_ray sqrt pow r.2.1 reflect_dir (depth + 1)
    let refract_color := cast_ray sqrt pow r.2.1 refract_dir (depth + 1)
    shade sqrt pow dir r.2.1 r.2.2.1 r.2.2.2 reflect_color refract_color
termination_by (5 - depth).toNat
decreasing_by
  all_goals omega

/-- The function `cast_ray` run with a bound `fuel` on the number of nested invocations: `none`
when the bound is reached.  No measure is built into this version. -/
def cast_ray_fuel (sqrt : F → F) (pow : F → F → F) :
    Nat → Vec3 F → Vec3 F → Int → Option (Vec3 F)
  | 0, _, _, _ => none
  | fuel + 1, orig, dir, depth =>
    let r := scene_intersect sqrt orig dir
    if depth > 4 ∨ r.1 = false then some background
    else
      let reflect_dir := (reflect dir r.2.2.1).normalized sqrt
      let refract_dir := (refract sqrt dir r.2.2.1 r.2.2.2.refractive_index 1).normalized sqrt
      match cast_ray_fuel sqrt pow fuel r.2.1 reflect_dir (depth + 1),
            cast_ray_fuel sqrt pow fuel r.2.1 refract_dir (depth + 1) with
      | some reflect_color, some refract_color =>
        some (shade sqrt pow dir r.2.1 r.2.2.1 r.2.2.2 reflect_color refract_color)
      | _, _ => none

/-! ## The vectors `normalized()` is applied to -/

/-- The arguments of the calls `(pt - s.center).normalized()` made by the sphere loop of
`scene_intersect`, in order, from the loop state `st` over the remaining spheres: a sphere that
is skipped by `continue` makes no call. -/
def scene_loop_normalized_args (sqrt : F → F) (orig dir : Vec3 F) :
    Nearest F → List (Sphere F) → List (Vec3 F)
  | _, [] => []
  | st, s :: rest =>
    let r := ray_sphere_intersect sqrt orig dir s
    (if r.1 = false ∨ r.2 > st.nearest_dist then [] else [orig + dir.smul r.2 - s.center])
      ++ scene_loop_normalized_args sqrt orig dir (scene_sphere sqrt orig dir st s) rest

/-- The arguments of all calls of `normalized()` made by one call of `scene_intersect`. -/
def scene_normalized_args (sqrt : F → F) (orig dir : Vec3 F) : List (Vec3 F) :=
  scene_loop_normalized_args sqrt orig dir (scene_plane orig dir) spheres

/-- The arguments of all calls of `normalized()` made during one call of `cast_ray`, in order:
those of its `scene_intersect`, then (on a hit with `depth <= 4`) the reflection and refraction
directions, those of the two recursive calls, and for every light the vector `light - point`
followed by those of the shadow `scene_intersect`. -/
def cast_ray_normalized_args (sqrt : F → F) (orig dir : Vec3 F) (depth : Int) :
    List (Vec3 F) :=
  let r := scene_intersect sqrt orig dir
  scene_normalized_args sqrt orig dir ++
    if h : depth > 4 ∨ r.1 = false then []
    else
      let reflect_dir := (reflect dir r.2.2.1).normalized sqrt
      let refract_dir := (refract sqrt dir r.2.2.1 r.2.2.2.refractive_index 1).normalized sqrt
      [reflect dir r.2.2.1, refract sqrt dir r.2.2.1 r.2.2.2.refractive_index 1]
        ++ cast_ray_normalized_args sqrt r.2.1 reflect_dir (depth + 1)
        ++ cast_ray_normalized_args sqrt r.2.1 refract_dir (depth + 1)
        ++ ((lights : List (Vec3 F)).map (fun light =>
              (light - r.2.1) ::
                scene_normalized_args sqrt r.2.1 ((light - r.2.1).normalized sqrt))).flatten
termination_by (5 - depth).toNat
decreasing_by
  all_goals omega

/-! ## Invocation traces -/

/-- The `depth` arguments of all invocations of `cast_ray` made during one call, in order: the
call itself, then (on a hit with `depth <= 4`) those of the call for the reflected ray and those
of the call for the refracted ray. -/
def cast_ray_depths (sqrt : F → F) (orig dir : Vec3 F) (depth : Int) : List Int :=
  let r := scene_intersect sqrt orig dir
  depth ::
    if h : depth > 4 ∨ r.1 = false then []
    else
      let reflect_dir := (reflect dir r.2.2.1).normalized sqrt
      let refract_dir := (refract sqrt dir r.2.2.1 r.2.2.2.refractive_index 1).normalized sqrt
      cast_ray_depths sqrt r.2.1 reflect_dir (depth + 1)
        ++ cast_ray_depths sqrt r.2.1 refract_dir (depth + 1)
termination_by (5 - depth).toNat
decreasing_by
  all_goals omega

/-- The function `refract` run with a bound `fuel` on the number of nested invocations: `none`
when the bound is reached.  No measure is built into this version. -/
def refract_fuel (sqrt : F → F) : Nat → Vec3 F → Vec3 F → F → F → Option (Vec3 F)
  | 0, _, _, _, _ => none
  | fuel + 1, I, N, eta_t, eta_i =>
    let cosi := refract_cosi I N
    if cosi < 0 then refract_fuel sqrt fuel I (-N) eta_i eta_t
    else
      let eta := eta_i / eta_t
      let k := 1 - eta * eta * (1 - cosi * cosi)
      some (if k < 0 then ⟨1, 0, 0⟩ else I.smul eta + N.smul (eta * cosi - sqrt k))

/-! ## Output (`main`) -/

/-- The conversion `(char)` of a floating value, as the byte written to the file: truncation
toward zero, reduced modulo 256. -/
def char_of (v : F) : Int := int_of v % 256

/-- The tone-mapping denominator of `main`:
`std::max(1.f, std::max(color[0], std::max(color[1], color[2])))`. -/
def tone_max (color : Vec3 F) : F := max 1 (max (color.get 0) (max (color.get 1) (color.get 2)))

/-- The byte `main` writes for channel `chan` of `color`: `(char)(255 * color[chan] / max)`. -/
def tone_byte (color : Vec3 F) (chan : Int) : Int :=
  char_of (255 * color.get chan / tone_max color)

/-! ## Quantities the statements are phrased with -/

/-- The plane distance `scene_intersect` accepts, if any: the list is `[d]` when the
checkerboard test of `scene_intersect` succeeds and empty otherwise. -/
def plane_hits (orig dir : Vec3 F) : List F :=
  if |dir.y| > 0.001 ∧ -(orig.y + 4) / dir.y > 0.001 ∧ -(orig.y + 4) / dir.y < 1e10
      ∧ |(orig + dir.smul (-(orig.y + 4) / dir.y)).x| < 10
      ∧ (orig + dir.smul (-(orig.y + 4) / dir.y)).z < -10
      ∧ (orig + dir.smul (-(orig.y + 4) / dir.y)).z > -30
  then [-(orig.y + 4) / dir.y] else []

/-- The distances `ray_sphere_intersect` returns with a hit, over the spheres of the scene. -/
def sphere_hits (sqrt : F → F) (orig dir : Vec3 F) : List F :=
  ((spheres : List (Sphere F)).filter
      (fun s => (ray_sphere_intersect sqrt orig dir s).1)).map
    (fun s => (ray_sphere_intersect sqrt orig dir s).2)

/-- The ray point at parameter `t` lies on the sphere `s`:
`|orig + t*dir - center| = radius`. -/
def OnSphere (sqrt : F → F) (orig dir : Vec3 F) (s : Sphere F) (t : F) : Prop :=
  (orig + dir.smul t - s.center).norm sqrt = s.radius

end Defs

deriving instance DecidableEq for Vec3

/-! ## Binary floating-point arithmetic -/

namespace B32

/-- An IEEE 754 value: NaN, an infinity with its sign, or a finite value held as the rational
number it denotes.  The two zeros are identified: the program never divides by a zero that can
be negative (`1.f / norm()` divides by a square root, the plane division is guarded by
`|dir.y| > 0.001`), and comparisons do not tell them apart. -/
inductive Fl where
  | nan : Fl
  | inf (neg : Bool) : Fl
  | fin (q : ℚ) : Fl
deriving DecidableEq

/-- A binary format: precision in bits, exponent of the smallest subnormal step, and the
exponent at which rounded values overflow. -/
structure Format where
  prec : Nat
  emin : Int
  emax : Int

/-- The format of `float`. -/
def binary32 : Format := ⟨24, -149, 128⟩

/-- The format of `double`. -/
def binary64 : Format := ⟨53, -1074, 1024⟩

/-- Number of binary digits of `n`, by halving at most `fuel` times. -/
def bitlenAux : Nat → Nat → Nat
  | 0, _ => 0
  | fuel + 1, n => if n = 0 then 0 else bitlenAux fuel (n / 2) + 1

/-- Number of binary digits of `n` (0 for 0). -/
def bitlen (n : Nat) : Nat := bitlenAux n n

/-- The power `2^e` for an integer exponent. -/
def pow2 (e : Int) : ℚ :=
  if 0 ≤ e then ((2 ^ e.toNat : Nat) : ℚ) else 1 / ((2 ^ (-e).toNat : Nat) : ℚ)

/-- The exponent `g` with `2^g <= a < 2^(g+1)`, for `a > 0`. -/
def ilog2 (a : ℚ) : Int :=
  let g : Int := (bitlen a.num.natAbs : Int) - (bitlen a.den : Int)
  if pow2 g ≤ a then g else g - 1

/-- Nearest multiple of `2^E` to `a >= 0`, ties to the even multiple, as a count. -/
def nearestEven (a : ℚ) (E : Int) : Nat :=
  let x := a / pow2 E
  let m0 := x.num.natAbs / x.den
  let r := x.num.natAbs % x.den
  if 2 * r < x.den then m0 else if x.den < 2 * r then m0 + 1
  else if m0 % 2 = 0 then m0 else m0 + 1

/-- Round-to-nearest-even of a magnitude `a >= 0` to `prec` significant bits, with steps no
finer than `2^emin` (gradual underflow), before any overflow check. -/
def roundMag (f : Format) (a : ℚ) : ℚ :=
  if a = 0 then 0
  else
    let E := max (ilog2 a - ((f.prec : Int) - 1)) f.emin
    (nearestEven a E : ℚ) * pow2 E

/-- The finite rounded value of `q` in format `f`, before any overflow check. -/
def roundQ (f : Format) (q : ℚ) : ℚ :=
  if q < 0 then -roundMag f (-q) else roundMag f q

/-- Rounding of an exact result `q` to format `f`: overflow gives an infinity. -/
def round (f : Format) (q : ℚ) : Fl :=
  if pow2 f.emax ≤ |roundQ f q| then Fl.inf (decide (q < 0)) else Fl.fin (roundQ f q)

/-- Negation (exact). -/
def neg : Fl → Fl
  | Fl.nan => Fl.nan
  | Fl.inf a => Fl.inf (!a)
  | Fl.fin x => Fl.fin (-x)

/-- Absolute value `std::abs` (exact). -/
def abs : Fl → Fl
  | Fl.nan => Fl.nan
  | Fl.inf _ => Fl.inf false
  | Fl.fin x => Fl.fin |x|

/-- Addition in format `f`. -/
def add (f : Format) : Fl → Fl → Fl
  | Fl.nan, _ => Fl.nan
  | _, Fl.nan => Fl.nan
  | Fl.inf a, Fl.inf b => if a = b then Fl.inf a else Fl.nan
  | Fl.inf a, Fl.fin _ => Fl.inf a
  | Fl.fin _, Fl.inf b => Fl.inf b
  | Fl.fin x, Fl.fin y => round f (x + y)

/-- Subtraction in format `f`. -/
def sub (f : Format) (a b : Fl) : Fl := add f a (neg b)

/-- Multiplication in format `f`. -/
def mul (f : Format) : Fl → Fl → Fl
  | Fl.nan, _ => Fl.nan
  | _, Fl.nan => Fl.nan
  | Fl.inf a, Fl.inf b => Fl.inf (a != b)
  | Fl.inf a, Fl.fin y => if y = 0 then Fl.nan else Fl.inf (a != decide (y < 0))
  | Fl.fin x, Fl.inf b => if x = 0 then Fl.nan else Fl.inf (decide (x < 0) != b)
  | Fl.fin x, Fl.fin y => round f (x * y)

/-- Division in format `f` (a zero divisor counts as `+0`). -/
def div (f : Format) : Fl → Fl → Fl
  | Fl.nan, _ => Fl.nan
  | _, Fl.nan => Fl.nan
  | Fl.inf _, Fl.inf _ => Fl.nan
  | Fl.inf a, Fl.fin y => Fl.inf (a != decide (y < 0))
  | Fl.fin _, Fl.inf _ => Fl.fin 0
  | Fl.fin x, Fl.fin y =>
    if y = 0 then (if x = 0 then Fl.nan else Fl.inf (decide (x < 0))) else round f (x / y)

/-- Integer square root by bits: the largest `r` extending `r0` by bits below `i` with
`r * r <= n`. -/
def isqrtAux : Nat → Nat → Nat → Nat
  | 0, _, r => r
  | i + 1, n, r => if (r + 2 ^ i) * (r + 2 ^ i) ≤ n then isqrtAux i n (r + 2 ^ i)
    else isqrtAux i n r

/-- Integer square root: the largest `r` with `r * r <= n`. -/
def isqrt (n : Nat) : Nat := isqrtAux (bitlen n) n 0

/-- Floor of half an integer. -/
def halfFloor (g : Int) : Int :=
  if 0 ≤ g then ((g.toNat / 2 : Nat) : Int) else -((((-g).toNat + 1) / 2 : Nat) : Int)

/-- Correctly rounded square root of `a > 0` in format `f`. -/
def sqrtMag (f : Format) (a : ℚ) : ℚ :=
  if a = 0 then 0
  else
    let E := max (halfFloor (ilog2 a) - ((f.prec : Int) - 1)) f.emin
    let y := a / pow2 (2 * E)
    let s := isqrt (y.num.natAbs / y.den)
    let m := if 4 * y < ((2 * s + 1 : Nat) : ℚ) * ((2 * s + 1 : Nat) : ℚ) then s
      else if ((2 * s + 1 : Nat) : ℚ) * ((2 * s + 1 : Nat) : ℚ) < 4 * y then s + 1
      else if s % 2 = 0 then s else s + 1
    (m : ℚ) * pow2 E

/-- Square root `std::sqrt` in format `f`. -/
def sqrt (f : Format) : Fl → Fl
  | Fl.nan => Fl.nan
  | Fl.inf a => if a then Fl.nan else Fl.inf false
  | Fl.fin x => if x < 0 then Fl.nan else Fl.fin (sqrtMag f x)

/-- The comparison `a < b`: false as soon as one side is NaN. -/
def lt : Fl → Fl → Bool
  | Fl.nan, _ => false
  | _, Fl.nan => false
  | Fl.inf a, Fl.inf b => a && !b
  | Fl.inf a, Fl.fin _ => a
  | Fl.fin _, Fl.inf b => !b
  | Fl.fin x, Fl.fin y => decide (x < y)

/-- The function `std::min`: `(b < a) ? b : a`. -/
def min (a b : Fl) : Fl := if lt b a then b else a

/-- The function `std::max`: `(a < b) ? b : a`. -/
def max (a b : Fl) : Fl := if lt a b then b else a

/-- The conversion `int(...)`: truncation toward zero (0 where the source is undefined). -/
def int_of : Fl → Int
  | Fl.fin q => if 0 ≤ q then ((q.num.natAbs / q.den : Nat) : Int)
    else -((q.num.natAbs / q.den : Nat) : Int)
  | _ => 0

/-- A `float` constant written as a decimal literal: the `double` nearest to the literal,
narrowed to `float`. -/
def lit (q : ℚ) : Fl := round binary32 (roundQ binary64 q)

/-- A `double` constant written as a decimal literal. -/
def dlit (q : ℚ) : Fl := round binary64 q

/-! ### The program over `float` -/

/-- Addition of `float`s. -/
def add32 (a b : Fl) : Fl := add binary32 a b

/-- Subtraction of `float`s. -/
def sub32 (a b : Fl) : Fl := sub binary32 a b

/-- Multiplication of `float`s. -/
def mul32 (a b : Fl) : Fl := mul binary32 a b

/-- Division of `float`s. -/
def div32 (a b : Fl) : Fl := div binary32 a b

/-- Indexing `operator[]`. -/
def get (v : Vec3 Fl) (i : Int) : Fl := if i = 0 then v.x else if 1 = i then v.y else v.z

/-- Scaling `operator*(const float v)`. -/
def smul (a : Vec3 Fl) (v : Fl) : Vec3 Fl := ⟨mul32 a.x v, mul32 a.y v, mul32 a.z v⟩

/-- Dot product `operator*(const Vec3& v)`: `x * v.x + y * v.y + z * v.z`. -/
def dot (a v : Vec3 Fl) : Fl := add32 (add32 (mul32 a.x v.x) (mul32 a.y v.y)) (mul32 a.z v.z)

/-- Sum `operator+`. -/
def vadd (a v : Vec3 Fl) : Vec3 Fl := ⟨add32 a.x v.x, add32 a.y v.y, add32 a.z v.z⟩

/-- Difference, the binary `operator-`. -/
def vsub (a v : Vec3 Fl) : Vec3 Fl := ⟨sub32 a.x v.x, sub32 a.y v.y, sub32 a.z v.z⟩

/-- Negation, the unary `operator-`. -/
def vneg (a : Vec3 Fl) : Vec3 Fl := ⟨neg a.x, neg a.y, neg a.z⟩

/-- Euclidean length `norm()`. -/
def norm (a : Vec3 Fl) : Fl :=
  sqrt binary32 (add32 (add32 (mul32 a.x a.x) (mul32 a.y a.y)) (mul32 a.z a.z))

/-- The method `normalized()`: `(*this) * (1.f / norm())`. -/
def normalized (a : Vec3 Fl) : Vec3 Fl := smul a (div32 (Fl.fin 1) (norm a))

/-- Default member initialisers of `Material`. -/
def default_material : Material Fl :=
  { refractive_index := Fl.fin 1, albedo := ![Fl.fin 2, Fl.fin 0, Fl.fin 0, Fl.fin 0],
    diffuse_color := ⟨Fl.fin 0, Fl.fin 0, Fl.fin 0⟩, specular_exponent := Fl.fin 0 }

def ivory : Material Fl :=
  ⟨lit 1.0, ![lit 0.9, lit 0.5, lit 0.1, lit 0.0], ⟨lit 0.4, lit 0.4, lit 0.3⟩, lit 50⟩
def emerald : Material Fl :=
  ⟨lit 1.4, ![lit 0.1, lit 0.9, lit 0.0, lit 0.0], ⟨lit 0.3, lit 0.8, lit 0.4⟩, lit 100⟩
def sapphire : Material Fl :=
  ⟨lit 1.6, ![lit 0.0, lit 0.2, lit 0.8, lit 0.0], ⟨lit 0.2, lit 0.5, lit 0.7⟩, lit 150⟩
def pearl : Material Fl :=
  ⟨lit 1.2, ![lit 0.9, lit 0.9, lit 0.8, lit 0.0], ⟨lit 0.8, lit 0.8, lit 0.7⟩, lit 20⟩
def gold : Material Fl :=
  ⟨lit 1.2, ![lit 0.8, lit 0.6, lit 0.0, lit 0.0], ⟨lit 0.7, lit 0.5, lit 0.2⟩, lit 80⟩
def ruby : Material Fl :=
  ⟨lit 1.7, ![lit 0.6, lit 0.0, lit 0.1, lit 0.0], ⟨lit 0.8, lit 0.2, lit 0.2⟩, lit 120⟩
def amethyst : Material Fl :=
  ⟨lit 1.5, ![lit 0.3, lit 0.0, lit 0.8, lit 0.0], ⟨lit 0.6, lit 0.1, lit 0.7⟩, lit 90⟩
def turquoise : Material Fl :=
  ⟨lit 1.4, ![lit 0.0, lit 0.7, lit 0.8, lit 0.0], ⟨lit 0.2, lit 0.5, lit 0.6⟩, lit 70⟩

/-- The array `spheres[]`. -/
def spheres : List (Sphere Fl) :=
  [ ⟨⟨Fl.fin (-3), Fl.fin 0, Fl.fin (-16)⟩, Fl.fin 2, ivory⟩,
    ⟨⟨lit (-1.0), lit (-1.5), Fl.fin (-12)⟩, Fl.fin 2, emerald⟩,
    ⟨⟨lit 1.5, lit (-0.5), Fl.fin (-18)⟩, Fl.fin 3, sapphire⟩,
    ⟨⟨Fl.fin 7, Fl.fin 5, Fl.fin (-18)⟩, Fl.fin 4, pearl⟩,
    ⟨⟨Fl.fin 2, Fl.fin 2, Fl.fin (-10)⟩, Fl.fin 1, gold⟩,
    ⟨⟨Fl.fin 0, Fl.fin 4, Fl.fin (-15)⟩, lit 1.5, ruby⟩,
    ⟨⟨Fl.fin (-4), Fl.fin 1, Fl.fin (-12)⟩, lit 1.8, amethyst⟩,
    ⟨⟨Fl.fin 6, Fl.fin (-1), Fl.fin (-14)⟩, lit 2.5, turquoise⟩ ]

/-- The array `lights[]`. -/
def lights : List (Vec3 Fl) :=
  [ ⟨Fl.fin (-20), Fl.fin 20, Fl.fin 20⟩, ⟨Fl.fin 30, Fl.fin 50, Fl.fin (-25)⟩,
    ⟨Fl.fin 30, Fl.fin 20, Fl.fin 30⟩ ]

/-- The function `reflect`: `I - N * 2.f * (I * N)`. -/
def reflect (I N : Vec3 Fl) : Vec3 Fl := vsub I (smul (smul N (Fl.fin 2)) (dot I N))

/-- The clamped cosine of `refract`: `-std::max(-1.f, std::min(1.f, I * N))`. -/
def refract_cosi (I N : Vec3 Fl) : Fl := neg (max (Fl.fin (-1)) (min (Fl.fin 1) (dot I N)))

/-- The function `refract`, run with a bound `fuel` on the number of nested invocations:
`none` when the bound is reached. -/
def refract_fuel : Nat → Vec3 Fl → Vec3 Fl → Fl → Fl → Option (Vec3 Fl)
  | 0, _, _, _, _ => none
  | fuel + 1, I, N, eta_t, eta_i =>
    let cosi := refract_cosi I N
    if lt cosi (Fl.fin 0) then refract_fuel fuel I (vneg N) eta_i eta_t
    else
      let eta := div32 eta_i eta_t
      let k := sub32 (Fl.fin 1) (mul32 (mul32 eta eta) (sub32 (Fl.fin 1) (mul32 cosi cosi)))
      some (if lt k (Fl.fin 0) then ⟨Fl.fin 1, Fl.fin 0, Fl.fin 0⟩
        else vadd (smul I eta) (smul N (sub32 (mul32 eta cosi) (sqrt binary32 k))))

/-- The function `ray_sphere_intersect`.  The comparisons with `0.001` are made in `double`,
to which the `float` operand converts exactly. -/
def ray_sphere_intersect (orig dir : Vec3 Fl) (s : Sphere Fl) : Bool × Fl :=
  let L := vsub s.center orig
  let tca := dot L dir
  let d2 := sub32 (dot L L) (mul32 tca tca)
  if lt (mul32 s.radius s.radius) d2 then (false, Fl.fin 0)
  else
    let thc := sqrt binary32 (sub32 (mul32 s.radius s.radius) d2)
    let t0 := sub32 tca thc
    let t1 := add32 tca thc
    if lt (dlit 0.001) t0 then (true, t0)
    else if lt (dlit 0.001) t1 then (true, t1)
    else (false, Fl.fin 0)

/-- The tile colour of the checkerboard at `pt`; the sum `.5 * pt.x + 1000` and the product
`.5 * pt.z` are computed in `double`. -/
def checker_color (pt : Vec3 Fl) : Vec3 Fl :=
  if (int_of (add binary64 (mul binary64 (dlit 0.5) pt.x) (Fl.fin 1000))
      + int_of (mul binary64 (dlit 0.5) pt.z)) % 2 ≠ 0
  then ⟨lit 0.3, lit 0.3, lit 0.3⟩ else ⟨lit 0.3, lit 0.2, lit 0.1⟩

/-- The first block of `scene_intersect`: the locals after the checkerboard test. -/
def scene_plane (orig dir : Vec3 Fl) : Nearest Fl :=
  let init : Nearest Fl :=
    ⟨lit 1e10, ⟨Fl.fin 0, Fl.fin 0, Fl.fin 0⟩, ⟨Fl.fin 0, Fl.fin 0, Fl.fin 0⟩, default_material⟩
  if lt (dlit 0.001) (abs dir.y) then
    let d := div32 (neg (add32 orig.y (Fl.fin 4))) dir.y
    let p := vadd orig (smul dir d)
    if lt (dlit 0.001) d && lt d init.nearest_dist && lt (abs p.x) (Fl.fin 10)
        && lt p.z (Fl.fin (-10)) && lt (Fl.fin (-30)) p.z then
      { nearest_dist := d, pt := p, N := ⟨Fl.fin 0, Fl.fin 1, Fl.fin 0⟩,
        material := { default_material with diffuse_color := checker_color p } }
    else init
  else init

/-- One iteration of the loop over the spheres in `scene_intersect`. -/
def scene_sphere (orig dir : Vec3 Fl) (st : Nearest Fl) (s : Sphere Fl) : Nearest Fl :=
  let r := ray_sphere_intersect orig dir s
  if r.1 = false ∨ lt st.nearest_dist r.2 = true then st
  else
    let pt := vadd orig (smul dir r.2)
    { nearest_dist := r.2, pt := pt, N := normalized (vsub pt s.center),
      material := s.material }

/-- The locals of `scene_intersect` at its `return`. -/
def scene_nearest (orig dir : Vec3 Fl) : Nearest Fl :=
  spheres.foldl (scene_sphere orig dir) (scene_plane orig dir)

/-- The function `scene_intersect`: `{nearest_dist < 1000, pt, N, material}`. -/
def scene_intersect (orig dir : Vec3 Fl) : Bool × Vec3 Fl × Vec3 Fl × Material Fl :=
  let st := scene_nearest orig dir
  (lt st.nearest_dist (Fl.fin 1000), st.pt, st.N, st.material)

/-- One iteration of the light loop of `cast_ray`; `pow` stands for `std::pow`. -/
def light_step (pow : Fl → Fl → Fl) (dir point N : Vec3 Fl) (material : Material Fl)
    (acc : Fl × Fl) (light : Vec3 Fl) : Fl × Fl :=
  let light_dir := normalized (vsub light point)
  let sh := scene_intersect point light_dir
  if sh.1 = true ∧ lt (norm (vsub sh.2.1 point)) (norm (vsub light point)) = true then acc
  else
    (add32 acc.1 (max (Fl.fin 0) (dot light_dir N)),
     add32 acc.2 (pow (max (Fl.fin 0) (dot (vneg (reflect (vneg light_dir) N)) dir))
       material.specular_exponent))

/-- The tail of `cast_ray` after its two recursive calls. -/
def shade (pow : Fl → Fl → Fl) (dir point N : Vec3 Fl) (material : Material Fl)
    (reflect_color refract_color : Vec3 Fl) : Vec3 Fl :=
  let li := lights.foldl (light_step pow dir point N material) (Fl.fin 0, Fl.fin 0)
  vadd
    (vadd
      (vadd (smul (smul material.diffuse_color li.1) (material.albedo 0))
        (smul (smul ⟨Fl.fin 1, Fl.fin 1, Fl.fin 1⟩ li.2) (material.albedo 1)))
      (smul reflect_color (material.albedo 2)))
    (smul refract_color (material.albedo 3))

/-- The background colour `{0.2, 0.7, 0.8}`. -/
def background : Vec3 Fl := ⟨lit 0.2, lit 0.7, lit 0.8⟩

/-- The function `cast_ray`, run with a bound `fuel` on the number of nested invocations of
`cast_ray` and `refract` together: `none` when the bound is reached. -/
def cast_ray_fuel (pow : Fl → Fl → Fl) : Nat → Vec3 Fl → Vec3 Fl → Int → Option (Vec3 Fl)
  | 0, _, _, _ => none
  | fuel + 1, orig, dir, depth =>
    let r := scene_intersect orig dir
    if depth > 4 ∨ r.1 = false then some background
    else
      let reflect_dir := normalized (reflect dir r.2.2.1)
      match refract_fuel fuel dir r.2.2.1 r.2.2.2.refractive_index (Fl.fin 1) with
      | none => none
      | some refr =>
        let refract_dir := normalized refr
        match cast_ray_fuel pow fuel r.2.1 reflect_dir (depth + 1),
              cast_ray_fuel pow fuel r.2.1 refract_dir (depth + 1) with
        | some reflect_color, some refract_color =>
          some (shade pow dir r.2.1 r.2.2.1 r.2.2.2 reflect_color refract_color)
        | _, _ => none

/-- The conversion `(char)` of a `float`, as the byte written to the file. -/
def char_of (v : Fl) : Int := int_of v % 256

/-- The tone-mapping denominator of `main`. -/
def tone_max (color : Vec3 Fl) : Fl :=
  max (Fl.fin 1) (max (get color 0) (max (get color 1) (get color 2)))

/-- The byte `main` writes for channel `chan`: `(char)(255 * color[chan] / max)`. -/
def tone_byte (color : Vec3 Fl) (chan : Int) : Int :=
  char_of (div32 (mul32 (Fl.fin 255) (get color chan)) (tone_max color))

end B32


/-! ## Component lemmas -/

section Basic

variable {F : Type} [LinearOrderedField F]

@[simp] theorem Vec3.add_x (a b : Vec3 F) : (a + b).x = a.x + b.x := rfl
@[simp] theorem Vec3.add_y (a b : Vec3 F) : (a + b).y = a.y + b.y := rfl
@[simp] theorem Vec3.add_z (a b : Vec3 F) : (a + b).z = a.z + b.z := rfl
@[simp] theorem Vec3.sub_x (a b : Vec3 F) : (a - b).x = a.x - b.x := rfl
@[simp] theorem Vec3.sub_y (a b : Vec3 F) : (a - b).y = a.y - b.y := rfl
@[simp] theorem Vec3.sub_z (a b : Vec3 F) : (a - b).z = a.z - b.z := rfl
@[simp] theorem Vec3.neg_x (a : Vec3 F) : (-a).x = -a.x := rfl
@[simp] theorem Vec3.neg_y (a : Vec3 F) : (-a).y = -a.y := rfl
@[simp] theorem Vec3.neg_z (a : Vec3 F) : (-a).z = -a.z := rfl
@[simp] theorem Vec3.smul_x (a : Vec3 F) (k : F) : (a.smul k).x = a.x * k := rfl
@[simp] theorem Vec3.smul_y (a : Vec3 F) (k : F) : (a.smul k).y = a.y * k := rfl
@[simp] theorem Vec3.smul_z (a : Vec3 F) (k : F) : (a.smul k).z = a.z * k := rfl
@[simp] theorem Vec3.zero_x : (0 : Vec3 F).x = 0 := rfl
@[simp] theorem Vec3.zero_y : (0 : Vec3 F).y = 0 := rfl
@[simp] theorem Vec3.zero_z : (0 : Vec3 F).z = 0 := rfl

theorem Vec3.dot_def (a b : Vec3 F) : a.dot b = a.x * b.x + a.y * b.y + a.z * b.z := rfl

theorem Vec3.dot_self_nonneg (a : Vec3 F) : 0 ≤ a.dot a := by
  rw [Vec3.dot_def]
  nlinarith [mul_self_nonneg a.x, mul_self_nonneg a.y, mul_self_nonneg a.z]

theorem Vec3.dot_self_eq_zero {a : Vec3 F} (h : a.dot a = 0) : a = 0 := by
  rw [Vec3.dot_def] at h
  have hx : a.x * a.x = 0 := by
    nlinarith [mul_self_nonneg a.x, mul_self_nonneg a.y, mul_self_nonneg a.z]
  have hy : a.y * a.y = 0 := by
    nlinarith [mul_self_nonneg a.x, mul_self_nonneg a.y, mul_self_nonneg a.z]
  have hz : a.z * a.z = 0 := by
    nlinarith [mul_self_nonneg a.x, mul_self_nonneg a.y, mul_self_nonneg a.z]
  ext
  · simpa using hx
  · simpa using hy
  · simpa using hz

end Basic

/-! ## Lengths over the reals -/

theorem norm_eq_sqrt_dot (a : Vec3 ℝ) : a.norm Real.sqrt = Real.sqrt (a.dot a) := rfl

theorem norm_nonneg (a : Vec3 ℝ) : 0 ≤ a.norm Real.sqrt := Real.sqrt_nonneg _

theorem norm_mul_self (a : Vec3 ℝ) : a.norm Real.sqrt * a.norm Real.sqrt = a.dot a := by
  rw [norm_eq_sqrt_dot]
  exact Real.mul_self_sqrt (Vec3.dot_self_nonneg a)

/-- A length equals a non-negative number exactly when the squared length equals its square. -/
theorem norm_eq_iff (a : Vec3 ℝ) {r : ℝ} (hr : 0 ≤ r) :
    a.norm Real.sqrt = r ↔ a.dot a = r * r := by
  constructor
  · intro h
    rw [← norm_mul_self, h]
  · intro h
    rw [norm_eq_sqrt_dot, h]
    exact Real.sqrt_mul_self hr

theorem dot_self_of_unit {a : Vec3 ℝ} (h : a.norm Real.sqrt = 1) : a.dot a = 1 := by
  have := (norm_eq_iff a (show (0 : ℝ) ≤ 1 by norm_num)).1 h
  simpa using this

theorem norm_pos_of_ne_zero {a : Vec3 ℝ} (h : a ≠ 0) : 0 < a.norm Real.sqrt := by
  rw [norm_eq_sqrt_dot]
  apply Real.sqrt_pos.2
  rcases lt_or_eq_of_le (Vec3.dot_self_nonneg a) with h1 | h1
  · exact h1
  · exact absurd (Vec3.dot_self_eq_zero h1.symm) h

theorem norm_smul (a : Vec3 ℝ) {k : ℝ} (hk : 0 ≤ k) :
    (a.smul k).norm Real.sqrt = k * a.norm Real.sqrt := by
  have h1 : (a.smul k).dot (a.smul k) = (k * a.norm Real.sqrt) * (k * a.norm Real.sqrt) := by
    have := norm_mul_self a
    simp only [Vec3.dot_def, Vec3.smul_x, Vec3.smul_y, Vec3.smul_z] at this ⊢
    linear_combination (-(k * k)) * this
  exact (norm_eq_iff _ (mul_nonneg hk (norm_nonneg a))).2 h1

theorem norm_normalized {v : Vec3 ℝ} (h : v ≠ 0) : (v.normalized Real.sqrt).norm Real.sqrt = 1 := by
  have hp := norm_pos_of_ne_zero h
  unfold Vec3.normalized
  rw [norm_smul v (by positivity)]
  field_simp

/-! ## Claims about the vector helpers -/

/-- C8: for every non-zero vector `v`, `normalized()` returns a vector of norm 1 that is a
positive scalar multiple of `v`. -/
theorem normalized_unit (v : Vec3 ℝ) (hv : v ≠ 0) :
    (v.normalized Real.sqrt).norm Real.sqrt = 1 ∧
      ∃ k : ℝ, 0 < k ∧ v.normalized Real.sqrt = v.smul k := by
  refine ⟨norm_normalized hv, 1 / v.norm Real.sqrt, ?_, rfl⟩
  have := norm_pos_of_ne_zero hv
  positivity

/-- Witness of C8 at `v = (3, 0, 4)`. -/
theorem normalized_unit_witness :
    (⟨3, 0, 4⟩ : Vec3 ℝ) ≠ 0 ∧
      ((⟨3, 0, 4⟩ : Vec3 ℝ).normalized Real.sqrt).norm Real.sqrt = 1 ∧
      ∃ k : ℝ, 0 < k ∧ (⟨3, 0, 4⟩ : Vec3 ℝ).normalized Real.sqrt = (⟨3, 0, 4⟩ : Vec3 ℝ).smul k :=
  have h : (⟨3, 0, 4⟩ : Vec3 ℝ) ≠ 0 := by
    intro h0
    have := congrArg Vec3.x h0
    norm_num at this
  ⟨h, normalized_unit _ h⟩

/-! ## Refraction -/

section RefractBasic

variable {F : Type} [LinearOrderedField F]

theorem Vec3.dot_neg_right (I N : Vec3 F) : I.dot (-N) = -(I.dot N) := by
  simp only [Vec3.dot_def, Vec3.neg_x, Vec3.neg_y, Vec3.neg_z]
  ring

theorem refract_cosi_neg (I N : Vec3 F) : refract_cosi I (-N) = -refract_cosi I N := by
  unfold refract_cosi
  rw [Vec3.dot_neg_right]
  simp only [max_def, min_def]
  split_ifs <;> linarith

/-- The recursive branch of `refract`. -/
theorem refract_of_neg (sqrt : F → F) (I N : Vec3 F) (eta_t eta_i : F)
    (h : refract_cosi I N < 0) :
    refract sqrt I N eta_t eta_i = refract sqrt I (-N) eta_i eta_t := by
  rw [refract]
  simp only [h, dite_true]

/-- The non-recursive branch of `refract`. -/
theorem refract_of_nonneg (sqrt : F → F) (I N : Vec3 F) (eta_t eta_i : F)
    (h : ¬ refract_cosi I N < 0) :
    refract sqrt I N eta_t eta_i =
      if 1 - eta_i / eta_t * (eta_i / eta_t) * (1 - refract_cosi I N * refract_cosi I N) < 0
      then ⟨1, 0, 0⟩
      else I.smul (eta_i / eta_t)
        + N.smul (eta_i / eta_t * refract_cosi I N
          - sqrt (1 - eta_i / eta_t * (eta_i / eta_t)
              * (1 - refract_cosi I N * refract_cosi I N))) := by
  rw [refract]
  simp only [h, dite_false]

end RefractBasic

theorem refract_same_of_nonneg (I N : Vec3 ℝ) (eta : ℝ) (heta : eta ≠ 0)
    (h : ¬ refract_cosi I N < 0) : refract Real.sqrt I N eta eta = I := by
  have hc : 0 ≤ refract_cosi I N := not_lt.1 h
  rw [refract_of_nonneg _ _ _ _ _ h, div_self heta]
  have hk : (1 : ℝ) - 1 * 1 * (1 - refract_cosi I N * refract_cosi I N)
      = refract_cosi I N * refract_cosi I N := by ring
  rw [hk, if_neg (not_lt.2 (mul_self_nonneg _)), Real.sqrt_mul_self hc]
  ext <;> simp

theorem get_cases (color : Vec3 ℝ) (chan : Int) :
    color.get chan = color.x ∨ color.get chan = color.y ∨ color.get chan = color.z := by
  unfold Vec3.get
  split_ifs <;> simp

theorem tone_max_ge_one (color : Vec3 ℝ) : 1 ≤ tone_max color := le_max_left _ _

theorem get_le_tone_max (color : Vec3 ℝ) (chan : Int) : color.get chan ≤ tone_max color := by
  have h0 : color.x ≤ tone_max color :=
    le_trans (le_max_left _ _) (le_max_right _ _)
  have h1 : color.y ≤ tone_max color :=
    le_trans (le_trans (le_max_left _ _) (le_max_right _ _)) (le_max_right _ _)
  have h2 : color.z ≤ tone_max color :=
    le_trans (le_trans (le_max_right _ _) (le_max_right _ _)) (le_max_right _ _)
  rcases get_cases color chan with h | h | h <;> rw [h] <;> assumption

theorem char_of_eq_floor {v : ℝ} (h0 : 0 ≤ v) (h1 : v ≤ 255) :
    char_of v = ⌊v⌋ ∧ 0 ≤ ⌊v⌋ ∧ ⌊v⌋ ≤ 255 := by
  have hf0 : 0 ≤ ⌊v⌋ := Int.floor_nonneg.2 h0
  have hf1 : ⌊v⌋ ≤ 255 := by
    have : (⌊v⌋ : ℝ) ≤ 255 := le_trans (Int.floor_le v) h1
    exact_mod_cast this
  refine ⟨?_, hf0, hf1⟩
  unfold char_of int_of
  rw [if_pos h0]
  omega

theorem tone_byte_eq_floor (color : Vec3 ℝ) (hx : 0 ≤ color.x) (hy : 0 ≤ color.y)
    (hz : 0 ≤ color.z) (chan : Int) :
    tone_byte color chan = ⌊255 * color.get chan / tone_max color⌋ ∧
      0 ≤ tone_byte color chan ∧ tone_byte color chan ≤ 255 := by
  have hM := tone_max_ge_one color
  have hc := get_le_tone_max color chan
  have h0 : 0 ≤ color.get chan := by
    rcases get_cases color chan with h | h | h <;> rw [h] <;> assumption
  have hv0 : 0 ≤ 255 * color.get chan / tone_max color := by positivity
  have hv1 : 255 * color.get chan / tone_max color ≤ 255 := by
    rw [div_le_iff₀ (by linarith)]
    nlinarith
  have := char_of_eq_floor hv0 hv1
  unfold tone_byte
  rw [this.1]
  exact ⟨rfl, this.2.1, this.2.2⟩

/-- The squared distance from the centre to the ray point at parameter `t`, for a unit
direction: `(t - tca)^2 + d2`. -/
theorem ray_point_dist (orig dir c : Vec3 ℝ) (t : ℝ) (hdir : dir.dot dir = 1) :
    (orig + dir.smul t - c).dot (orig + dir.smul t - c)
      = (t - (c - orig).dot dir) * (t - (c - orig).dot dir)
        + ((c - orig).dot (c - orig) - (c - orig).dot dir * (c - orig).dot dir) := by
  simp only [Vec3.dot_def, Vec3.sub_x, Vec3.sub_y, Vec3.sub_z, Vec3.add_x, Vec3.add_y,
    Vec3.add_z, Vec3.smul_x, Vec3.smul_y, Vec3.smul_z] at hdir ⊢
  linear_combination (t * t) * hdir

theorem onSphere_iff (orig dir : Vec3 ℝ) (s : Sphere ℝ) (t : ℝ) (hdir : dir.dot dir = 1)
    (hr : 0 ≤ s.radius) :
    OnSphere Real.sqrt orig dir s t ↔
      (t - (s.center - orig).dot dir) * (t - (s.center - orig).dot dir)
        = s.radius * s.radius - ((s.center - orig).dot (s.center - orig)
            - (s.center - orig).dot dir * (s.center - orig).dot dir) := by
  unfold OnSphere
  rw [norm_eq_iff _ hr, ray_point_dist orig dir s.center t hdir]
  constructor <;> intro h <;> linarith

/-- The case analysis of `ray_sphere_intersect` against the geometry. -/
theorem ray_sphere_cases (orig dir : Vec3 ℝ) (s : Sphere ℝ) (hdir : dir.dot dir = 1)
    (hr : 0 ≤ s.radius) :
    ((ray_sphere_intersect Real.sqrt orig dir s).1 = false ∧
        (ray_sphere_intersect Real.sqrt orig dir s).2 = 0 ∧
        ∀ t : ℝ, 0.001 < t → ¬ OnSphere Real.sqrt orig dir s t) ∨
    ((ray_sphere_intersect Real.sqrt orig dir s).1 = true ∧
        0.001 < (ray_sphere_intersect Real.sqrt orig dir s).2 ∧
        OnSphere Real.sqrt orig dir s (ray_sphere_intersect Real.sqrt orig dir s).2 ∧
        ∀ t : ℝ, 0.001 < t → OnSphere Real.sqrt orig dir s t →
          (ray_sphere_intersect Real.sqrt orig dir s).2 ≤ t) := by
  have key := fun t => onSphere_iff orig dir s t hdir hr
  unfold ray_sphere_intersect
  simp only
  generalize hL : (s.center - orig).dot dir = tca at key ⊢
  generalize hd2 : (s.center - orig).dot (s.center - orig) - tca * tca = d2 at key ⊢
  by_cases h1 : d2 > s.radius * s.radius
  · left
    rw [if_pos h1]
    refine ⟨rfl, rfl, fun t _ ht => ?_⟩
    have := (key t).1 ht
    nlinarith [mul_self_nonneg (t - tca)]
  · rw [if_neg h1]
    have hnn : 0 ≤ s.radius * s.radius - d2 := by linarith [not_lt.1 h1]
    have hthc0 : 0 ≤ Real.sqrt (s.radius * s.radius - d2) := Real.sqrt_nonneg _
    have hthc2 := Real.mul_self_sqrt hnn
    generalize Real.sqrt (s.radius * s.radius - d2) = thc at hthc0 hthc2 ⊢
    have sol : ∀ t : ℝ, OnSphere Real.sqrt orig dir s t ↔ t = tca - thc ∨ t = tca + thc := by
      intro t
      rw [key t, ← hthc2]
      constructor
      · intro h
        have h0 : (t - (tca - thc)) * (t - (tca + thc)) = 0 := by linarith
        rcases mul_eq_zero.1 h0 with h | h
        · left; linarith
        · right; linarith
      · rintro (h | h) <;> rw [h] <;> ring
    by_cases h2 : tca - thc > 0.001
    · right
      rw [if_pos h2]
      refine ⟨rfl, h2, (sol _).2 (Or.inl rfl), fun t _ ht => ?_⟩
      rcases (sol t).1 ht with h | h <;> simp only [h] <;> linarith
    · rw [if_neg h2]
      by_cases h3 : tca + thc > 0.001
      · right
        rw [if_pos h3]
        refine ⟨rfl, h3, (sol _).2 (Or.inr rfl), fun t ht0 ht => ?_⟩
        rcases (sol t).1 ht with h | h
        · rw [h] at ht0
          exact absurd ht0 h2
        · simp only [h]; exact le_refl _
      · left
        rw [if_neg h3]
        refine ⟨rfl, rfl, fun t ht0 ht => ?_⟩
        rcases (sol t).1 ht with h | h <;> rw [h] at ht0
        · exact h2 ht0
        · exact h3 ht0

/-- The sphere loop of `scene_intersect` from an arbitrary state: the final distance is at most
the initial one and at most every returned sphere distance, and the final state is either the
initial state or the record written for some sphere that was hit. -/
theorem scene_loop (sqrt : ℝ → ℝ) (orig dir : Vec3 ℝ) (ss : List (Sphere ℝ)) :
    ∀ st : Nearest ℝ,
      (ss.foldl (scene_sphere sqrt orig dir) st).nearest_dist ≤ st.nearest_dist ∧
      (∀ s ∈ ss, (ray_sphere_intersect sqrt orig dir s).1 = true →
        (ss.foldl (scene_sphere sqrt orig dir) st).nearest_dist
          ≤ (ray_sphere_intersect sqrt orig dir s).2) ∧
      (ss.foldl (scene_sphere sqrt orig dir) st = st ∨
        ∃ s ∈ ss, (ray_sphere_intersect sqrt orig dir s).1 = true ∧
          ss.foldl (scene_sphere sqrt orig dir) st =
            ⟨(ray_sphere_intersect sqrt orig dir s).2,
              orig + dir.smul (ray_sphere_intersect sqrt orig dir s).2,
              (orig + dir.smul (ray_sphere_intersect sqrt orig dir s).2 - s.center).normalized
                sqrt,
              s.material⟩) := by
  induction ss with
  | nil =>
    intro st
    exact ⟨le_refl _, fun s hs => absurd hs (List.not_mem_nil s), Or.inl rfl⟩
  | cons s0 rest ih =>
    intro st
    rw [List.foldl_cons]
    obtain ⟨ih1, ih2, ih3⟩ := ih (scene_sphere sqrt orig dir st s0)
    by_cases hc : (ray_sphere_intersect sqrt orig dir s0).1 = false
        ∨ (ray_sphere_intersect sqrt orig dir s0).2 > st.nearest_dist
    · have hst : scene_sphere sqrt orig dir st s0 = st := by
        unfold scene_sphere
        simp only [hc, if_true]
      rw [hst] at ih1 ih2 ih3 ⊢
      refine ⟨ih1, ?_, ?_⟩
      · intro s hs hhit
        rcases List.mem_cons.1 hs with h | h
        · subst h
          rcases hc with hc | hc
          · rw [hc] at hhit; exact absurd hhit (by simp)
          · exact le_trans ih1 (le_of_lt hc)
        · exact ih2 s h hhit
      · rcases ih3 with h | ⟨s, hs, hhit, h⟩
        · exact Or.inl h
        · exact Or.inr ⟨s, List.mem_cons_of_mem _ hs, hhit, h⟩
    · have hst : scene_sphere sqrt orig dir st s0 =
          ⟨(ray_sphere_intersect sqrt orig dir s0).2,
            orig + dir.smul (ray_sphere_intersect sqrt orig dir s0).2,
            (orig + dir.smul (ray_sphere_intersect sqrt orig dir s0).2 - s0.center).normalized
              sqrt,
            s0.material⟩ := by
        unfold scene_sphere
        simp only [hc, if_false]
      have hc1 : (ray_sphere_intersect sqrt orig dir s0).1 = true := by
        by_contra h
        exact hc (Or.inl (by simpa using h))
      have hc2 : (ray_sphere_intersect sqrt orig dir s0).2 ≤ st.nearest_dist := by
        by_contra h
        exact hc (Or.inr (not_le.1 h))
      have hnd : (scene_sphere sqrt orig dir st s0).nearest_dist
          = (ray_sphere_intersect sqrt orig dir s0).2 := by rw [hst]
      refine ⟨le_trans ih1 (by rw [hnd]; exact hc2), ?_, ?_⟩
      · intro s hs hhit
        rcases List.mem_cons.1 hs with h | h
        · subst h
          exact le_trans ih1 (le_of_eq hnd)
        · exact ih2 s h hhit
      · right
        rcases ih3 with h | ⟨s, hs, hhit, h⟩
        · exact ⟨s0, List.mem_cons_self _ _, hc1, by rw [h, hst]⟩
        · exact ⟨s, List.mem_cons_of_mem _ hs, hhit, h⟩

theorem mem_sphere_hits (sqrt : ℝ → ℝ) (orig dir : Vec3 ℝ) (t : ℝ) :
    t ∈ sphere_hits sqrt orig dir ↔
      ∃ s ∈ (spheres : List (Sphere ℝ)), (ray_sphere_intersect sqrt orig dir s).1 = true ∧
        (ray_sphere_intersect sqrt orig dir s).2 = t := by
  unfold sphere_hits
  simp only [List.mem_map, List.mem_filter]
  constructor
  · rintro ⟨s, ⟨hs, hhit⟩, ht⟩
    exact ⟨s, hs, hhit, ht⟩
  · rintro ⟨s, hs, hhit, ht⟩
    exact ⟨s, ⟨hs, hhit⟩, ht⟩

/-- The two outcomes of the checkerboard test of `scene_intersect`. -/
theorem scene_plane_cases (orig dir : Vec3 ℝ) :
    (plane_hits orig dir = [] ∧ scene_plane orig dir = ⟨1e10, 0, 0, Material.default⟩) ∨
    (plane_hits orig dir = [-(orig.y + 4) / dir.y] ∧
      scene_plane orig dir =
        ⟨-(orig.y + 4) / dir.y, orig + dir.smul (-(orig.y + 4) / dir.y), ⟨0, 1, 0⟩,
          { (Material.default : Material ℝ) with
            diffuse_color := checker_color (orig + dir.smul (-(orig.y + 4) / dir.y)) }⟩ ∧
      |dir.y| > 0.001 ∧ -(orig.y + 4) / dir.y > 0.001 ∧ -(orig.y + 4) / dir.y < 1e10 ∧
      |(orig + dir.smul (-(orig.y + 4) / dir.y)).x| < 10 ∧
      (orig + dir.smul (-(orig.y + 4) / dir.y)).z < -10 ∧
      (orig + dir.smul (-(orig.y + 4) / dir.y)).z > -30) := by
  unfold plane_hits scene_plane
  simp only
  by_cases h1 : |dir.y| > 0.001
  · by_cases h2 : -(orig.y + 4) / dir.y > 0.001 ∧ -(orig.y + 4) / dir.y < 1e10
        ∧ |(orig + dir.smul (-(orig.y + 4) / dir.y)).x| < 10
        ∧ (orig + dir.smul (-(orig.y + 4) / dir.y)).z < -10
        ∧ (orig + dir.smul (-(orig.y + 4) / dir.y)).z > -30
    · right
      rw [if_pos ⟨h1, h2⟩, if_pos h1, if_pos h2]
      exact ⟨rfl, rfl, h1, h2⟩
    · left
      rw [if_neg (fun h => h2 h.2), if_pos h1, if_neg h2]
      exact ⟨rfl, rfl⟩
  · left
    rw [if_neg (fun h => h1 h.1), if_neg h1]
    exact ⟨rfl, rfl⟩

/-- The selection made by `scene_intersect`, phrased with the qualifying distances. -/
theorem scene_select (orig dir : Vec3 ℝ) :
    ((scene_intersect Real.sqrt orig dir).1 = true ↔
        ∃ t ∈ plane_hits orig dir ++ sphere_hits Real.sqrt orig dir, t < 1000) ∧
    ((scene_intersect Real.sqrt orig dir).1 = true →
        ∃ t ∈ plane_hits orig dir ++ sphere_hits Real.sqrt orig dir,
          (∀ u ∈ plane_hits orig dir ++ sphere_hits Real.sqrt orig dir, t ≤ u) ∧ t < 1000 ∧
          (scene_intersect Real.sqrt orig dir).2.1 = orig + dir.smul t) := by
  obtain ⟨l1, l2, l3⟩ := scene_loop Real.sqrt orig dir spheres (scene_plane orig dir)
  have hhit : (scene_intersect Real.sqrt orig dir).1 = true ↔
      (scene_nearest Real.sqrt orig dir).nearest_dist < 1000 := by
    unfold scene_intersect
    simp only [decide_eq_true_eq]
  have hpt : (scene_intersect Real.sqrt orig dir).2.1 = (scene_nearest Real.sqrt orig dir).pt :=
    rfl
  rw [hhit, hpt]
  unfold scene_nearest
  have hmin : ∀ u ∈ plane_hits orig dir ++ sphere_hits Real.sqrt orig dir,
      ((spheres : List (Sphere ℝ)).foldl (scene_sphere Real.sqrt orig dir)
        (scene_plane orig dir)).nearest_dist ≤ u := by
    intro u hu
    rcases List.mem_append.1 hu with h | h
    · rcases scene_plane_cases orig dir with ⟨e, _⟩ | ⟨e, est, _⟩
      · rw [e] at h; exact absurd h (List.not_mem_nil u)
      · rw [e] at h
        rw [List.mem_singleton.1 h]
        refine le_trans l1 (le_of_eq ?_)
        rw [est]
    · obtain ⟨s, hs, hh, ht⟩ := (mem_sphere_hits _ _ _ _).1 h
      rw [← ht]
      exact l2 s hs hh
  have hsel : ((spheres : List (Sphere ℝ)).foldl (scene_sphere Real.sqrt orig dir)
        (scene_plane orig dir)).nearest_dist < 1000 →
      ∃ t ∈ plane_hits orig dir ++ sphere_hits Real.sqrt orig dir,
        t = ((spheres : List (Sphere ℝ)).foldl (scene_sphere Real.sqrt orig dir)
            (scene_plane orig dir)).nearest_dist ∧
        ((spheres : List (Sphere ℝ)).foldl (scene_sphere Real.sqrt orig dir)
            (scene_plane orig dir)).pt = orig + dir.smul t := by
    intro hlt
    rcases l3 with h | ⟨s, hs, hh, h⟩
    · rw [h] at hlt ⊢
      rcases scene_plane_cases orig dir with ⟨_, est⟩ | ⟨e, est, _⟩
      · rw [est] at hlt
        norm_num at hlt
      · refine ⟨-(orig.y + 4) / dir.y, ?_, ?_, ?_⟩
        · rw [e]; simp
        · rw [est]
        · rw [est]
    · refine ⟨(ray_sphere_intersect Real.sqrt orig dir s).2, ?_, ?_, ?_⟩
      · exact List.mem_append_right _ ((mem_sphere_hits _ _ _ _).2 ⟨s, hs, hh, rfl⟩)
      · rw [h]
      · rw [h]
  refine ⟨⟨fun h => ?_, fun ⟨t, ht, hlt⟩ => lt_of_le_of_lt (hmin t ht) hlt⟩, fun h => ?_⟩
  · obtain ⟨t, ht, e, _⟩ := hsel h
    exact ⟨t, ht, by rw [e]; exact h⟩
  · obtain ⟨t, ht, e, ept⟩ := hsel h
    refine ⟨t, ht, fun u hu => ?_, by rw [e]; exact h, ept⟩
    rw [e]
    exact hmin u hu

/-- C2: `scene_intersect` selects the nearest hit among the checkerboard plane and all spheres.
It reports a hit exactly when some qualifying distance (the accepted plane distance, the sphere
distances returned by `ray_sphere_intersect`) is below 1000, and then the reported point is
`orig + dir*t` for a qualifying `t` that no qualifying distance is smaller than. -/
theorem scene_intersect_nearest (orig dir : Vec3 ℝ) :
    ((scene_intersect Real.sqrt orig dir).1 = true ↔
        ∃ t ∈ plane_hits orig dir ++ sphere_hits Real.sqrt orig dir, t < 1000) ∧
    ((scene_intersect Real.sqrt orig dir).1 = true →
        ∃ t ∈ plane_hits orig dir ++ sphere_hits Real.sqrt orig dir,
          (∀ u ∈ plane_hits orig dir ++ sphere_hits Real.sqrt orig dir, t ≤ u) ∧ t < 1000 ∧
          (scene_intersect Real.sqrt orig dir).2.1 = orig + dir.smul t) :=
  scene_select orig dir

/-! ## Termination of `cast_ray` -/

section CastRay

variable {F : Type} [LinearOrderedField F] [FloorRing F]

/-- The recursive equation of `cast_ray`, as in the source. -/
theorem cast_ray_eq (sqrt : F → F) (pow : F → F → F) (orig dir : Vec3 F) (depth : Int) :
    cast_ray sqrt pow orig dir depth =
      if depth > 4 ∨ (scene_intersect sqrt orig dir).1 = false then background
      else
        shade sqrt pow dir (scene_intersect sqrt orig dir).2.1
          (scene_intersect sqrt orig dir).2.2.1 (scene_intersect sqrt orig dir).2.2.2
          (cast_ray sqrt pow (scene_intersect sqrt orig dir).2.1
            ((reflect dir (scene_intersect sqrt orig dir).2.2.1).normalized sqrt) (depth + 1))
          (cast_ray sqrt pow (scene_intersect sqrt orig dir).2.1
            ((refract sqrt dir (scene_intersect sqrt orig dir).2.2.1
              (scene_intersect sqrt orig dir).2.2.2.refractive_index 1).normalized sqrt)
            (depth + 1)) := by
  rw [cast_ray]
  by_cases h : depth > 4 ∨ (scene_intersect sqrt orig dir).1 = false
  · simp only [h, dite_true, if_true]
  · simp only [h, dite_false, if_false]

theorem cast_ray_of_deep (sqrt : F → F) (pow : F → F → F) (orig dir : Vec3 F) (depth : Int)
    (h : 4 < depth) : cast_ray sqrt pow orig dir depth = background := by
  rw [cast_ray_eq, if_pos (Or.inl h)]

theorem cast_ray_of_miss (sqrt : F → F) (pow : F → F → F) (orig dir : Vec3 F) (depth : Int)
    (h : (scene_intersect sqrt orig dir).1 = false) :
    cast_ray sqrt pow orig dir depth = background := by
  rw [cast_ray_eq, if_pos (Or.inr h)]

/-- With more fuel than `5 - depth` the bounded run returns the value of `cast_ray`. -/
theorem cast_ray_fuel_eq (sqrt : F → F) (pow : F → F → F) :
    ∀ (fuel : Nat) (orig dir : Vec3 F) (depth : Int), (5 - depth).toNat < fuel →
      cast_ray_fuel sqrt pow fuel orig dir depth = some (cast_ray sqrt pow orig dir depth) := by
  intro fuel
  induction fuel with
  | zero =>
    intro orig dir depth h
    exact absurd h (Nat.not_lt_zero _)
  | succ n ih =>
    intro orig dir depth h
    rw [cast_ray_eq]
    unfold cast_ray_fuel
    simp only
    by_cases hc : depth > 4 ∨ (scene_intersect sqrt orig dir).1 = false
    · rw [if_pos hc, if_pos hc]
    · rw [if_neg hc, if_neg hc]
      have hd : depth ≤ 4 := by
        by_contra hgt
        exact hc (Or.inl (by omega))
      have hlt : (5 - (depth + 1)).toNat < n := by omega
      rw [ih _ _ _ hlt, ih _ _ _ hlt]

end CastRay

theorem spheres_radius_pos : ∀ s ∈ (spheres : List (Sphere ℝ)), 0 < s.radius := by
  intro s hs
  simp only [spheres, List.mem_cons, List.mem_singleton, List.not_mem_nil, or_false] at hs
  rcases hs with h | h | h | h | h | h | h | h <;> rw [h] <;> norm_num

/-- A ray no point of which (beyond 0.001) lies on a sphere or on the checkerboard region is
reported as a miss by `scene_intersect`. -/
theorem scene_miss (orig dir : Vec3 ℝ) (hdir : dir.norm Real.sqrt = 1)
    (hs : ∀ s ∈ (spheres : List (Sphere ℝ)), ∀ t : ℝ, 0.001 < t →
      ¬ OnSphere Real.sqrt orig dir s t)
    (hp : ∀ t : ℝ, 0.001 < t →
      ¬ ((orig + dir.smul t).y = -4 ∧ |(orig + dir.smul t).x| < 10 ∧
          -30 < (orig + dir.smul t).z ∧ (orig + dir.smul t).z < -10)) :
    (scene_intersect Real.sqrt orig dir).1 = false := by
  by_contra hne
  have hhit : (scene_intersect Real.sqrt orig dir).1 = true := by simpa using hne
  obtain ⟨t, ht, _⟩ := (scene_select orig dir).1.1 hhit
  rcases List.mem_append.1 ht with h | h
  · rcases scene_plane_cases orig dir with ⟨e, _⟩ | ⟨e, _, c1, c2, _, c4, c5, c6⟩
    · rw [e] at h; exact absurd h (List.not_mem_nil t)
    · have hy : dir.y ≠ 0 := by
        intro h0
        rw [h0] at c1
        norm_num at c1
      refine hp _ c2 ⟨?_, c4, c6, c5⟩
      simp only [Vec3.add_y, Vec3.smul_y]
      field_simp
  · obtain ⟨s, hsm, hh, _⟩ := (mem_sphere_hits _ _ _ _).1 h
    rcases ray_sphere_cases orig dir s (dot_self_of_unit hdir)
        (le_of_lt (spheres_radius_pos s hsm)) with ⟨hf, _⟩ | ⟨_, h0, h1, _⟩
    · rw [hf] at hh; exact absurd hh (by simp)
    · exact hs s hsm _ h0 h1

section Lights

variable {F : Type} [LinearOrderedField F] [FloorRing F]

/-- One light, as the source's loop body: an occluded light leaves both intensities as they
are, any other light adds its diffuse and specular terms. -/
theorem light_step_eq (sqrt : F → F) (pow : F → F → F) (dir P N : Vec3 F) (m : Material F)
    (acc : F × F) (L : Vec3 F) :
    light_step sqrt pow dir P N m acc L =
      if (scene_intersect sqrt P ((L - P).normalized sqrt)).1 = true ∧
          ((scene_intersect sqrt P ((L - P).normalized sqrt)).2.1 - P).norm sqrt
            < (L - P).norm sqrt
      then acc
      else (acc.1 + max 0 (((L - P).normalized sqrt).dot N),
            acc.2 + pow (max 0 ((-(reflect (-((L - P).normalized sqrt)) N)).dot dir))
              m.specular_exponent) := rfl

/-- The light loop from arbitrary initial intensities, as a pair of sums over the lights. -/
theorem light_fold (sqrt : F → F) (pow : F → F → F) (dir P N : Vec3 F) (m : Material F)
    (ls : List (Vec3 F)) :
    ∀ acc : F × F, ls.foldl (light_step sqrt pow dir P N m) acc =
      (acc.1 + (ls.map (fun L =>
          if (scene_intersect sqrt P ((L - P).normalized sqrt)).1 = true ∧
              ((scene_intersect sqrt P ((L - P).normalized sqrt)).2.1 - P).norm sqrt
                < (L - P).norm sqrt
          then 0 else max 0 (((L - P).normalized sqrt).dot N))).sum,
       acc.2 + (ls.map (fun L =>
          if (scene_intersect sqrt P ((L - P).normalized sqrt)).1 = true ∧
              ((scene_intersect sqrt P ((L - P).normalized sqrt)).2.1 - P).norm sqrt
                < (L - P).norm sqrt
          then 0
          else pow (max 0 ((-(reflect (-((L - P).normalized sqrt)) N)).dot dir))
            m.specular_exponent)).sum) := by
  induction ls with
  | nil =>
    intro acc
    simp
  | cons L rest ih =>
    intro acc
    rw [List.foldl_cons, ih, light_step_eq]
    simp only [List.map_cons, List.sum_cons]
    split_ifs
    · simp
    · simp only [add_assoc]

/-- C5: in `cast_ray` at a hit point `P` with normal `N` and material `m` (`depth <= 4`), each
light `L` with `lightDir = normalize(L - P)` whose shadow ray `scene_intersect(P, lightDir)`
reports a hit at a point `S` with `|S - P| < |L - P|` adds nothing to the diffuse and specular
intensities, and every other light adds `max(0, lightDir . N)` to the diffuse intensity and
`max(0, -(reflect(-lightDir, N)) . dir)^specular_exponent` to the specular intensity: the result
of `cast_ray` is the source's combination with these two sums as intensities. -/
theorem cast_ray_light_contributions (sqrt : F → F) (pow : F → F → F) (orig dir : Vec3 F)
    (depth : Int) (P N : Vec3 F) (m : Material F) (hd : depth ≤ 4)
    (hsi : scene_intersect sqrt orig dir = (true, P, N, m)) :
    cast_ray sqrt pow orig dir depth =
      ((m.diffuse_color.smul
            (((lights : List (Vec3 F)).map (fun L =>
              if (scene_intersect sqrt P ((L - P).normalized sqrt)).1 = true ∧
                  ((scene_intersect sqrt P ((L - P).normalized sqrt)).2.1 - P).norm sqrt
                    < (L - P).norm sqrt
              then 0 else max 0 (((L - P).normalized sqrt).dot N))).sum)).smul (m.albedo 0)
        + ((⟨1, 1, 1⟩ : Vec3 F).smul
            (((lights : List (Vec3 F)).map (fun L =>
              if (scene_intersect sqrt P ((L - P).normalized sqrt)).1 = true ∧
                  ((scene_intersect sqrt P ((L - P).normalized sqrt)).2.1 - P).norm sqrt
                    < (L - P).norm sqrt
              then 0
              else pow (max 0 ((-(reflect (-((L - P).normalized sqrt)) N)).dot dir))
                m.specular_exponent)).sum)).smul (m.albedo 1)
        + (cast_ray sqrt pow P ((reflect dir N).normalized sqrt) (depth + 1)).smul (m.albedo 2))
        + (cast_ray sqrt pow P ((refract sqrt dir N m.refractive_index 1).normalized sqrt)
            (depth + 1)).smul (m.albedo 3) := by
  have hnot : ¬ (depth > 4 ∨ (scene_intersect sqrt orig dir).1 = false) := by
    rw [hsi]
    intro h
    rcases h with h | h
    · omega
    · exact absurd h (by simp)
  rw [cast_ray_eq, if_neg hnot, hsi]
  simp only [shade, light_fold, zero_add]

end Lights

/-! ### A ray evaluated: from `(8, 0, -25)` straight down -/

/-- The sphere loop leaves the state as it is when every sphere is missed. -/
theorem scene_loop_of_miss (sqrt : ℝ → ℝ) (orig dir : Vec3 ℝ) (ss : List (Sphere ℝ))
    (h : ∀ s ∈ ss, ray_sphere_intersect sqrt orig dir s = (false, 0)) :
    ∀ st : Nearest ℝ, ss.foldl (scene_sphere sqrt orig dir) st = st := by
  induction ss with
  | nil => intro st; rfl
  | cons s rest ih =>
    intro st
    have hs : scene_sphere sqrt orig dir st s = st := by
      unfold scene_sphere
      simp only [h s (List.mem_cons_self _ _), true_or, if_true]
    rw [List.foldl_cons, hs]
    exact ih (fun s hs => h s (List.mem_cons_of_mem _ hs)) st

/-- The ray from `(8, 0, -25)` straight down misses every sphere of the scene. -/
theorem down_ray_misses_spheres (s : Sphere ℝ) (hs : s ∈ (spheres : List (Sphere ℝ))) :
    ray_sphere_intersect Real.sqrt (⟨8, 0, -25⟩ : Vec3 ℝ) ⟨0, -1, 0⟩ s = (false, 0) := by
  unfold ray_sphere_intersect
  simp only [spheres, List.mem_cons, List.mem_singleton, List.not_mem_nil, or_false] at hs
  rcases hs with h | h | h | h | h | h | h | h <;> rw [h] <;>
    simp only [Vec3.dot_def, Vec3.sub_x, Vec3.sub_y, Vec3.sub_z] <;>
    rw [if_pos (by norm_num)]

/-- The tile at `(8, -4, -25)`: `int(1004) + int(-12.5) = 1004 - 12` is even. -/
theorem checker_color_example :
    checker_color (⟨8, -4, -25⟩ : Vec3 ℝ) = ⟨0.3, 0.2, 0.1⟩ := by
  have hf : ⌊(0.5 * 8 + 1000 : ℝ)⌋ = 1004 := by
    rw [Int.floor_eq_iff]; norm_num
  have hc : ⌈(0.5 * (-25) : ℝ)⌉ = -12 := by
    rw [Int.ceil_eq_iff]; norm_num
  have h1 : int_of (0.5 * 8 + 1000 : ℝ) = 1004 := by
    unfold int_of
    rw [if_pos (by norm_num), hf]
  have h2 : int_of (0.5 * (-25) : ℝ) = -12 := by
    unfold int_of
    rw [if_neg (by norm_num), hc]
  unfold checker_color
  simp only
  rw [h1, h2]
  norm_num

/-- The ray from `(8, 0, -25)` straight down hits the checkerboard at `(8, -4, -25)`. -/
theorem scene_intersect_down_ray :
    scene_intersect Real.sqrt (⟨8, 0, -25⟩ : Vec3 ℝ) ⟨0, -1, 0⟩ =
      (true, ⟨8, -4, -25⟩, ⟨0, 1, 0⟩,
        { (Material.default : Material ℝ) with diffuse_color := ⟨0.3, 0.2, 0.1⟩ }) := by
  have hpl : scene_plane (⟨8, 0, -25⟩ : Vec3 ℝ) ⟨0, -1, 0⟩ =
      ⟨4, ⟨8, -4, -25⟩, ⟨0, 1, 0⟩,
        { (Material.default : Material ℝ) with diffuse_color := ⟨0.3, 0.2, 0.1⟩ }⟩ := by
    rcases scene_plane_cases (⟨8, 0, -25⟩ : Vec3 ℝ) ⟨0, -1, 0⟩ with ⟨e, _⟩ | ⟨_, est, _⟩
    · exfalso
      unfold plane_hits at e
      norm_num [abs_lt] at e
    · rw [est]
      have hp : (⟨8, 0, -25⟩ : Vec3 ℝ) + (⟨0, -1, 0⟩ : Vec3 ℝ).smul
          (-((⟨8, 0, -25⟩ : Vec3 ℝ).y + 4) / (⟨0, -1, 0⟩ : Vec3 ℝ).y) = ⟨8, -4, -25⟩ := by
        ext <;> simp
      rw [hp, checker_color_example]
      norm_num
  unfold scene_intersect scene_nearest
  simp only
  rw [scene_loop_of_miss _ _ _ _ down_ray_misses_spheres, hpl]
  norm_num

/-- Witness of C5: the ray from `(8, 0, -25)` straight down, which hits the checkerboard at
`P = (8, -4, -25)` with normal `(0, 1, 0)`. -/
theorem cast_ray_light_contributions_witness :
    (0 : Int) ≤ 4 ∧
    scene_intersect Real.sqrt (⟨8, 0, -25⟩ : Vec3 ℝ) ⟨0, -1, 0⟩ =
      (true, ⟨8, -4, -25⟩, ⟨0, 1, 0⟩,
        { (Material.default : Material ℝ) with diffuse_color := ⟨0.3, 0.2, 0.1⟩ }) ∧
    cast_ray Real.sqrt Real.rpow (⟨8, 0, -25⟩ : Vec3 ℝ) ⟨0, -1, 0⟩ 0 =
      (((⟨0.3, 0.2, 0.1⟩ : Vec3 ℝ).smul
            (((lights : List (Vec3 ℝ)).map (fun L =>
              if (scene_intersect Real.sqrt ⟨8, -4, -25⟩
                    ((L - ⟨8, -4, -25⟩).normalized Real.sqrt)).1 = true ∧
                  ((scene_intersect Real.sqrt ⟨8, -4, -25⟩
                      ((L - ⟨8, -4, -25⟩).normalized Real.sqrt)).2.1
                    - ⟨8, -4, -25⟩).norm Real.sqrt < (L - ⟨8, -4, -25⟩).norm Real.sqrt
              then 0
              else max 0 (((L - ⟨8, -4, -25⟩).normalized Real.sqrt).dot ⟨0, 1, 0⟩))).sum)).smul 2
        + ((⟨1, 1, 1⟩ : Vec3 ℝ).smul
            (((lights : List (Vec3 ℝ)).map (fun L =>
              if (scene_intersect Real.sqrt ⟨8, -4, -25⟩
                    ((L - ⟨8, -4, -25⟩).normalized Real.sqrt)).1 = true ∧
                  ((scene_intersect Real.sqrt ⟨8, -4, -25⟩
                      ((L - ⟨8, -4, -25⟩).normalized Real.sqrt)).2.1
                    - ⟨8, -4, -25⟩).norm Real.sqrt < (L - ⟨8, -4, -25⟩).norm Real.sqrt
              then 0
              else Real.rpow (max 0 ((-(reflect (-((L - ⟨8, -4, -25⟩).normalized Real.sqrt))
                  ⟨0, 1, 0⟩)).dot ⟨0, -1, 0⟩)) 0)).sum)).smul 0
        + (cast_ray Real.sqrt Real.rpow ⟨8, -4, -25⟩
            ((reflect (⟨0, -1, 0⟩ : Vec3 ℝ) ⟨0, 1, 0⟩).normalized Real.sqrt) (0 + 1)).smul 0)
        + (cast_ray Real.sqrt Real.rpow ⟨8, -4, -25⟩
            ((refract Real.sqrt (⟨0, -1, 0⟩ : Vec3 ℝ) ⟨0, 1, 0⟩ 1 1).normalized Real.sqrt)
            (0 + 1)).smul 0 := by
  refine ⟨by norm_num, scene_intersect_down_ray, ?_⟩
  rw [cast_ray_light_contributions Real.sqrt Real.rpow _ _ 0 _ _ _ (by norm_num)
    scene_intersect_down_ray]
  simp only [Material.default, Matrix.cons_val_zero, Matrix.cons_val_one, Matrix.head_cons,
    Matrix.cons_val_two, Matrix.tail_cons, Matrix.cons_val_three]

/-! ## No `normalized()` of a zero vector -/

theorem ne_zero_of_norm_pos {a : Vec3 ℝ} (h : 0 < a.norm Real.sqrt) : a ≠ 0 := by
  intro h0
  rw [h0] at h
  simp [Vec3.norm] at h

theorem ne_zero_of_dot_self {a : Vec3 ℝ} (h : a.dot a = 1) : a ≠ 0 := by
  intro h0
  rw [h0] at h
  simp [Vec3.dot_def] at h

theorem norm_of_dot_self {a : Vec3 ℝ} (h : a.dot a = 1) : a.norm Real.sqrt = 1 := by
  rw [norm_eq_iff a (by norm_num)]
  simpa using h

/-- Every vector the sphere loop of `scene_intersect` normalises is non-zero, for a unit
direction and spheres of positive radius. -/
theorem scene_loop_args_ne_zero (orig dir : Vec3 ℝ) (hdir : dir.dot dir = 1)
    (ss : List (Sphere ℝ)) (hss : ∀ s ∈ ss, 0 < s.radius) :
    ∀ st : Nearest ℝ, ∀ v ∈ scene_loop_normalized_args Real.sqrt orig dir st ss, v ≠ 0 := by
  induction ss with
  | nil =>
    intro st v hv
    simp [scene_loop_normalized_args] at hv
  | cons s rest ih =>
    intro st v hv
    unfold scene_loop_normalized_args at hv
    simp only at hv
    rcases List.mem_append.1 hv with h | h
    · have hr := hss s (List.mem_cons_self _ _)
      split_ifs at h with hc
      · exact absurd h (List.not_mem_nil v)
      · rw [List.mem_singleton.1 h]
        have hh : (ray_sphere_intersect Real.sqrt orig dir s).1 = true := by
          by_contra hf
          exact hc (Or.inl (by simpa using hf))
        rcases ray_sphere_cases orig dir s hdir (le_of_lt hr) with ⟨hf, _⟩ | ⟨_, _, hon, _⟩
        · rw [hf] at hh; exact absurd hh (by simp)
        · apply ne_zero_of_norm_pos
          unfold OnSphere at hon
          rw [hon]
          exact hr
    · exact ih (fun s hs => hss s (List.mem_cons_of_mem _ hs)) _ v h

theorem scene_args_ne_zero (orig dir : Vec3 ℝ) (hdir : dir.dot dir = 1) :
    ∀ v ∈ scene_normalized_args Real.sqrt orig dir, v ≠ 0 :=
  scene_loop_args_ne_zero orig dir hdir spheres spheres_radius_pos _

/-- On a hit with a unit direction the normal has unit length and the point lies on a sphere of
the scene or at height `-4`. -/
theorem scene_hit_facts (orig dir : Vec3 ℝ) (hdir : dir.dot dir = 1)
    (hhit : (scene_intersect Real.sqrt orig dir).1 = true) :
    (scene_intersect Real.sqrt orig dir).2.2.1.dot (scene_intersect Real.sqrt orig dir).2.2.1 = 1 ∧
    ((∃ s ∈ (spheres : List (Sphere ℝ)),
        ((scene_intersect Real.sqrt orig dir).2.1 - s.center).norm Real.sqrt = s.radius) ∨
      (scene_intersect Real.sqrt orig dir).2.1.y = -4) := by
  obtain ⟨_, _, l3⟩ := scene_loop Real.sqrt orig dir spheres (scene_plane orig dir)
  have hlt : (scene_nearest Real.sqrt orig dir).nearest_dist < 1000 := by
    unfold scene_intersect at hhit
    simpa using hhit
  have hN : (scene_intersect Real.sqrt orig dir).2.2.1 = (scene_nearest Real.sqrt orig dir).N :=
    rfl
  have hP : (scene_intersect Real.sqrt orig dir).2.1 = (scene_nearest Real.sqrt orig dir).pt :=
    rfl
  rw [hN, hP]
  unfold scene_nearest at hlt ⊢
  rcases l3 with h | ⟨s, hs, hh, h⟩
  · rw [h] at hlt ⊢
    rcases scene_plane_cases orig dir with ⟨_, est⟩ | ⟨_, est, c1, _⟩
    · rw [est] at hlt
      norm_num at hlt
    · rw [est]
      have hy : dir.y ≠ 0 := by
        intro h0
        rw [h0] at c1
        norm_num at c1
      refine ⟨by simp [Vec3.dot_def], Or.inr ?_⟩
      simp only [Vec3.add_y, Vec3.smul_y]
      field_simp
  · rw [h]
    have hr := spheres_radius_pos s hs
    rcases ray_sphere_cases orig dir s hdir (le_of_lt hr) with ⟨hf, _⟩ | ⟨_, _, hon, _⟩
    · rw [hf] at hh; exact absurd hh (by simp)
    · unfold OnSphere at hon
      have hne : orig + dir.smul (ray_sphere_intersect Real.sqrt orig dir s).2 - s.center ≠ 0 := by
        apply ne_zero_of_norm_pos
        rw [hon]
        exact hr
      exact ⟨dot_self_of_unit (norm_normalized hne), Or.inl ⟨s, hs, hon⟩⟩

theorem reflect_dot_self (d n : Vec3 ℝ) (hd : d.dot d = 1) (hn : n.dot n = 1) :
    (reflect d n).dot (reflect d n) = 1 := by
  simp only [reflect, Vec3.dot_def, Vec3.sub_x, Vec3.sub_y, Vec3.sub_z, Vec3.smul_x,
    Vec3.smul_y, Vec3.smul_z] at hd hn ⊢
  linear_combination hd
    + (4 * (d.x * n.x + d.y * n.y + d.z * n.z) * (d.x * n.x + d.y * n.y + d.z * n.z)) * hn

/-- Cauchy-Schwarz for unit vectors. -/
theorem dot_sq_le_one (a b : Vec3 ℝ) (ha : a.dot a = 1) (hb : b.dot b = 1) :
    a.dot b * a.dot b ≤ 1 := by
  simp only [Vec3.dot_def] at ha hb ⊢
  nlinarith [mul_self_nonneg (a.x * b.y - a.y * b.x), mul_self_nonneg (a.x * b.z - a.z * b.x),
    mul_self_nonneg (a.y * b.z - a.z * b.y)]

/-- For unit vectors the clamp in `refract` does nothing. -/
theorem refract_cosi_of_unit (I N : Vec3 ℝ) (hI : I.dot I = 1) (hN : N.dot N = 1) :
    refract_cosi I N = -(I.dot N) := by
  have h := dot_sq_le_one I N hI hN
  have h1 : I.dot N ≤ 1 := by nlinarith
  have h2 : -1 ≤ I.dot N := by nlinarith
  unfold refract_cosi
  rw [min_eq_right h1, max_eq_right h2]

/-- The non-recursive branch of `refract` on unit vectors returns a vector of squared length 1
(the Snell vector, or the sentinel `(1, 0, 0)`). -/
theorem refract_dot_self_of_nonneg (I N : Vec3 ℝ) (eta_t eta_i : ℝ) (hI : I.dot I = 1)
    (hN : N.dot N = 1) (h : ¬ refract_cosi I N < 0) :
    (refract Real.sqrt I N eta_t eta_i).dot (refract Real.sqrt I N eta_t eta_i) = 1 := by
  rw [refract_of_nonneg _ _ _ _ _ h]
  have hc := refract_cosi_of_unit I N hI hN
  generalize refract_cosi I N = c at hc ⊢
  generalize eta_i / eta_t = eta
  by_cases hk : 1 - eta * eta * (1 - c * c) < 0
  · rw [if_pos hk]
    simp [Vec3.dot_def]
  · rw [if_neg hk]
    have hs := Real.mul_self_sqrt (not_lt.1 hk)
    generalize Real.sqrt (1 - eta * eta * (1 - c * c)) = q at hs
    simp only [Vec3.dot_def, Vec3.add_x, Vec3.add_y, Vec3.add_z, Vec3.smul_x, Vec3.smul_y,
      Vec3.smul_z] at hI hN hc ⊢
    linear_combination (eta * eta) * hI + ((eta * c - q) * (eta * c - q)) * hN
      + (2 * eta * (eta * c - q)) * hc + hs

theorem neg_dot_self (N : Vec3 ℝ) : (-N).dot (-N) = N.dot N := by
  simp only [Vec3.dot_def, Vec3.neg_x, Vec3.neg_y, Vec3.neg_z]
  ring

/-- On unit vectors `refract` returns a vector of squared length 1, hence a non-zero vector. -/
theorem refract_dot_self (I N : Vec3 ℝ) (eta_t eta_i : ℝ) (hI : I.dot I = 1)
    (hN : N.dot N = 1) :
    (refract Real.sqrt I N eta_t eta_i).dot (refract Real.sqrt I N eta_t eta_i) = 1 := by
  by_cases h : refract_cosi I N < 0
  · rw [refract_of_neg _ _ _ _ _ h]
    apply refract_dot_self_of_nonneg _ _ _ _ hI (by rw [neg_dot_self]; exact hN)
    rw [refract_cosi_neg]
    linarith
  · exact refract_dot_self_of_nonneg _ _ _ _ hI hN h

/-- No light of the scene lies on a sphere of the scene or at height `-4`. -/
theorem light_sub_ne_zero (P : Vec3 ℝ)
    (hP : (∃ s ∈ (spheres : List (Sphere ℝ)), (P - s.center).norm Real.sqrt = s.radius) ∨
      P.y = -4) :
    ∀ L ∈ (lights : List (Vec3 ℝ)), L - P ≠ 0 := by
  intro L hL h0
  have hx : L.x - P.x = 0 := congrArg Vec3.x h0
  have hy : L.y - P.y = 0 := congrArg Vec3.y h0
  have hz : L.z - P.z = 0 := congrArg Vec3.z h0
  have ex : P.x = L.x := by linarith
  have ey : P.y = L.y := by linarith
  have ez : P.z = L.z := by linarith
  simp only [lights, List.mem_cons, List.mem_singleton, List.not_mem_nil, or_false] at hL
  rcases hP with ⟨s, hs, hon⟩ | hpl
  · have hr := spheres_radius_pos s hs
    have h2 := (norm_eq_iff _ (le_of_lt hr)).1 hon
    simp only [Vec3.dot_def, Vec3.sub_x, Vec3.sub_y, Vec3.sub_z] at h2
    rw [ex, ey, ez] at h2
    simp only [spheres, List.mem_cons, List.mem_singleton, List.not_mem_nil, or_false] at hs
    rcases hL with h | h | h <;> rw [h] at h2 <;>
      rcases hs with h | h | h | h | h | h | h | h <;> rw [h] at h2 <;> norm_num at h2
  · rw [ey] at hpl
    rcases hL with h | h | h <;> rw [h] at hpl <;> norm_num at hpl

/-- The recursive equation of `cast_ray_normalized_args`. -/
theorem cast_ray_normalized_args_eq (sqrt : ℝ → ℝ) (orig dir : Vec3 ℝ) (depth : Int) :
    cast_ray_normalized_args sqrt orig dir depth =
      scene_normalized_args sqrt orig dir ++
        if depth > 4 ∨ (scene_intersect sqrt orig dir).1 = false then []
        else
          [reflect dir (scene_intersect sqrt orig dir).2.2.1,
            refract sqrt dir (scene_intersect sqrt orig dir).2.2.1
              (scene_intersect sqrt orig dir).2.2.2.refractive_index 1]
          ++ cast_ray_normalized_args sqrt (scene_intersect sqrt orig dir).2.1
              ((reflect dir (scene_intersect sqrt orig dir).2.2.1).normalized sqrt) (depth + 1)
          ++ cast_ray_normalized_args sqrt (scene_intersect sqrt orig dir).2.1
              ((refract sqrt dir (scene_intersect sqrt orig dir).2.2.1
                (scene_intersect sqrt orig dir).2.2.2.refractive_index 1).normalized sqrt)
              (depth + 1)
          ++ ((lights : List (Vec3 ℝ)).map (fun light =>
                (light - (scene_intersect sqrt orig dir).2.1) ::
                  scene_normalized_args sqrt (scene_intersect sqrt orig dir).2.1
                    ((light - (scene_intersect sqrt orig dir).2.1).normalized sqrt))).flatten := by
  rw [cast_ray_normalized_args]
  by_cases h : depth > 4 ∨ (scene_intersect sqrt orig dir).1 = false
  · simp only [h, dite_true, if_true]
  · simp only [h, dite_false, if_false]

/-- Induction behind C10: `k` bounds the number of recursion levels left. -/
theorem cast_ray_args_ne_zero :
    ∀ (k : Nat) (orig dir : Vec3 ℝ) (depth : Int), 5 - (k : Int) ≤ depth → dir.dot dir = 1 →
      ∀ v ∈ cast_ray_normalized_args Real.sqrt orig dir depth, v ≠ 0 := by
  intro k
  induction k with
  | zero =>
    intro orig dir depth hk hdir v hv
    rw [cast_ray_normalized_args_eq, if_pos (Or.inl (by push_cast at hk; omega)),
      List.append_nil] at hv
    exact scene_args_ne_zero orig dir hdir v hv
  | succ n ih =>
    intro orig dir depth hk hdir v hv
    rw [cast_ray_normalized_args_eq] at hv
    rcases List.mem_append.1 hv with h | h
    · exact scene_args_ne_zero orig dir hdir v h
    · split_ifs at h with hc
      · exact absurd h (List.not_mem_nil v)
      · have hhit : (scene_intersect Real.sqrt orig dir).1 = true := by
          by_contra hf
          exact hc (Or.inr (by simpa using hf))
        obtain ⟨hN, hP⟩ := scene_hit_facts orig dir hdir hhit
        have hrefl := reflect_dot_self dir _ hdir hN
        have hrefr := refract_dot_self dir _
          (scene_intersect Real.sqrt orig dir).2.2.2.refractive_index 1 hdir hN
        have hk2 : 5 - (n : Int) ≤ depth + 1 := by push_cast at hk; omega
        rcases List.mem_append.1 h with h | h
        · rcases List.mem_append.1 h with h | h
          · rcases List.mem_append.1 h with h | h
            · simp only [List.mem_cons, List.mem_singleton, List.not_mem_nil, or_false] at h
              rcases h with h | h
              · rw [h]; exact ne_zero_of_dot_self hrefl
              · rw [h]; exact ne_zero_of_dot_self hrefr
            · exact ih _ _ _ hk2
                (dot_self_of_unit (norm_normalized (ne_zero_of_dot_self hrefl))) v h
          · exact ih _ _ _ hk2
              (dot_self_of_unit (norm_normalized (ne_zero_of_dot_self hrefr))) v h
        · obtain ⟨l, hl, hvl⟩ := List.mem_flatten.1 h
          obtain ⟨L, hL, rfl⟩ := List.mem_map.1 hl
          have hLne := light_sub_ne_zero _ hP L hL
          rcases List.mem_cons.1 hvl with h | h
          · rw [h]; exact hLne
          · exact scene_args_ne_zero _ _ (dot_self_of_unit (norm_normalized hLne)) v h

/-- The two kinds of hit `scene_intersect` reports for a unit direction: the checkerboard record,
or the record of a sphere that `ray_sphere_intersect` hits. -/
theorem scene_hit_cases (orig dir : Vec3 ℝ) (hdir : dir.dot dir = 1)
    (hhit : (scene_intersect Real.sqrt orig dir).1 = true) :
    (plane_hits orig dir = [-(orig.y + 4) / dir.y] ∧
      scene_nearest Real.sqrt orig dir = scene_plane orig dir ∧
      (scene_intersect Real.sqrt orig dir).2.1 = orig + dir.smul (-(orig.y + 4) / dir.y) ∧
      (scene_intersect Real.sqrt orig dir).2.1.y = -4 ∧
      (scene_intersect Real.sqrt orig dir).2.2.1 = ⟨0, 1, 0⟩ ∧
      (scene_intersect Real.sqrt orig dir).2.2.2 =
        { (Material.default : Material ℝ) with
          diffuse_color := checker_color (orig + dir.smul (-(orig.y + 4) / dir.y)) }) ∨
    (∃ s ∈ (spheres : List (Sphere ℝ)),
      (ray_sphere_intersect Real.sqrt orig dir s).1 = true ∧
      (scene_intersect Real.sqrt orig dir).2.1
        = orig + dir.smul (ray_sphere_intersect Real.sqrt orig dir s).2 ∧
      ((scene_intersect Real.sqrt orig dir).2.1 - s.center).norm Real.sqrt = s.radius ∧
      (scene_intersect Real.sqrt orig dir).2.2.1
        = ((scene_intersect Real.sqrt orig dir).2.1 - s.center).smul (1 / s.radius) ∧
      (scene_intersect Real.sqrt orig dir).2.2.2 = s.material) := by
  obtain ⟨_, _, l3⟩ := scene_loop Real.sqrt orig dir spheres (scene_plane orig dir)
  have hlt : (scene_nearest Real.sqrt orig dir).nearest_dist < 1000 := by
    unfold scene_intersect at hhit
    simpa using hhit
  have hP : (scene_intersect Real.sqrt orig dir).2.1 = (scene_nearest Real.sqrt orig dir).pt :=
    rfl
  have hN : (scene_intersect Real.sqrt orig dir).2.2.1 = (scene_nearest Real.sqrt orig dir).N :=
    rfl
  have hM : (scene_intersect Real.sqrt orig dir).2.2.2
      = (scene_nearest Real.sqrt orig dir).material := rfl
  rw [hP, hN, hM]
  rcases l3 with h | ⟨s, hs, hh, h⟩
  · left
    have h' : scene_nearest Real.sqrt orig dir = scene_plane orig dir := h
    rw [h'] at hlt ⊢
    rcases scene_plane_cases orig dir with ⟨_, est⟩ | ⟨e, est, c1, _⟩
    · rw [est] at hlt
      norm_num at hlt
    · have hy : dir.y ≠ 0 := by
        intro h0
        rw [h0] at c1
        norm_num at c1
      rw [est]
      refine ⟨e, rfl, rfl, ?_, rfl, rfl⟩
      simp only [Vec3.add_y, Vec3.smul_y]
      field_simp
  · right
    have h' : scene_nearest Real.sqrt orig dir = _ := h
    rw [h']
    have hr := spheres_radius_pos s hs
    rcases ray_sphere_cases orig dir s hdir (le_of_lt hr) with ⟨hf, _⟩ | ⟨_, _, hon, _⟩
    · rw [hf] at hh; exact absurd hh (by simp)
    · unfold OnSphere at hon
      refine ⟨s, hs, hh, rfl, hon, ?_, rfl⟩
      simp only [Vec3.normalized]
      rw [hon]

/-- When no sphere is hit the sphere loop of `scene_intersect` changes nothing. -/
theorem scene_nearest_of_no_sphere (orig dir : Vec3 ℝ)
    (hno : ∀ s ∈ (spheres : List (Sphere ℝ)),
      (ray_sphere_intersect Real.sqrt orig dir s).1 = false) :
    scene_nearest Real.sqrt orig dir = scene_plane orig dir := by
  obtain ⟨_, _, l3⟩ := scene_loop Real.sqrt orig dir spheres (scene_plane orig dir)
  rcases l3 with h | ⟨s, hs, hh, _⟩
  · exact h
  · rw [hno s hs] at hh
    exact absurd hh (by simp)

/-- On the checkerboard region `int(.5 * x + 1000)` is a floor and `int(.5 * z)` is a ceiling:
the first argument is positive, the second negative. -/
theorem checker_color_region (p : Vec3 ℝ) (hx : |p.x| < 10) (_hz1 : -30 < p.z)
    (hz2 : p.z < -10) :
    checker_color p =
      if (⌊0.5 * p.x + 1000⌋ + ⌈0.5 * p.z⌉) % 2 = 1 then (⟨0.3, 0.3, 0.3⟩ : Vec3 ℝ)
      else ⟨0.3, 0.2, 0.1⟩ := by
  have hx' := abs_lt.1 hx
  have h1 : int_of (0.5 * p.x + 1000) = ⌊0.5 * p.x + 1000⌋ := by
    unfold int_of
    rw [if_pos (by norm_num; linarith)]
  have h2 : int_of (0.5 * p.z) = ⌈0.5 * p.z⌉ := by
    unfold int_of
    rw [if_neg (by norm_num; linarith)]
  unfold checker_color
  rw [h1, h2]
  by_cases h : (⌊0.5 * p.x + 1000⌋ + ⌈0.5 * p.z⌉) % 2 = 1
  · rw [if_pos h, if_pos (by omega)]
  · rw [if_neg h, if_neg (by omega)]

section RefractFuel

variable {F : Type} [LinearOrderedField F]

/-- One invocation of `refract` suffices when the clamped cosine is not negative. -/
theorem refract_fuel_one (sqrt : F → F) (I N : Vec3 F) (eta_t eta_i : F)
    (h : ¬ refract_cosi I N < 0) :
    refract_fuel sqrt 1 I N eta_t eta_i = some (refract sqrt I N eta_t eta_i) := by
  rw [refract_of_nonneg sqrt I N eta_t eta_i h]
  unfold refract_fuel
  simp only [h, if_false]

theorem refract_cosi_neg_pos (I N : Vec3 F) (h : refract_cosi I N < 0) :
    0 < refract_cosi I (-N) := by
  rw [refract_cosi_neg]
  linarith

end RefractFuel

/-- The value of `refract` on unit vectors with `I . N <= 0`, in terms of
`k = 1 - eta^2 (1 - (I . N)^2)`. -/
theorem refract_entering (I N : Vec3 ℝ) (eta_t eta_i : ℝ) (hI : I.dot I = 1)
    (hN : N.dot N = 1) (hIN : I.dot N ≤ 0) :
    refract_cosi I N = -(I.dot N) ∧
    refract Real.sqrt I N eta_t eta_i =
      if 1 - eta_i / eta_t * (eta_i / eta_t) * (1 - I.dot N * I.dot N) < 0 then ⟨1, 0, 0⟩
      else I.smul (eta_i / eta_t)
        + N.smul (eta_i / eta_t * -(I.dot N)
          - Real.sqrt (1 - eta_i / eta_t * (eta_i / eta_t) * (1 - I.dot N * I.dot N))) := by
  have hc := refract_cosi_of_unit I N hI hN
  have hnn : ¬ refract_cosi I N < 0 := by
    rw [hc]
    linarith
  refine ⟨hc, ?_⟩
  rw [refract_of_nonneg _ _ _ _ _ hnn, hc]
  have e : -(I.dot N) * -(I.dot N) = I.dot N * I.dot N := by ring
  rw [e]

theorem spheres_refractive_index : ∀ s ∈ (spheres : List (Sphere ℝ)),
    1 ≤ s.material.refractive_index := by
  intro s hs
  simp only [spheres, List.mem_cons, List.mem_singleton, List.not_mem_nil, or_false] at hs
  rcases hs with h | h | h | h | h | h | h | h <;> rw [h] <;>
    simp only [ivory, emerald, sapphire, pearl, gold, ruby, amethyst, turquoise] <;> norm_num

/-- C19: the total-internal-reflection sentinel is not taken for rays entering a medium from
outside.  For unit-length `I` and `N` with `I . N <= 0` and `eta_t >= eta_i > 0`, `k >= 0` and
`refract` returns `I*eta + N*(eta*cosi - sqrt(k))`; this covers the default `eta_i = 1` with
every material of the scene, whose refractive index is at least 1. -/
theorem refract_no_sentinel (I N : Vec3 ℝ) (eta_t eta_i : ℝ) (hI : I.norm Real.sqrt = 1)
    (hN : N.norm Real.sqrt = 1) (hIN : I.dot N ≤ 0) (hi : 0 < eta_i) (hti : eta_i ≤ eta_t) :
    0 ≤ 1 - eta_i / eta_t * (eta_i / eta_t) * (1 - refract_cosi I N * refract_cosi I N) ∧
    refract Real.sqrt I N eta_t eta_i =
      I.smul (eta_i / eta_t)
        + N.smul (eta_i / eta_t * refract_cosi I N
          - Real.sqrt (1 - eta_i / eta_t * (eta_i / eta_t)
              * (1 - refract_cosi I N * refract_cosi I N))) ∧
    (∀ s ∈ (spheres : List (Sphere ℝ)), (1 : ℝ) ≤ s.material.refractive_index) ∧
    (1 : ℝ) ≤ (Material.default : Material ℝ).refractive_index := by
  have hI1 := dot_self_of_unit hI
  have hN1 := dot_self_of_unit hN
  have hc := refract_cosi_of_unit I N hI1 hN1
  have hsq := dot_sq_le_one I N hI1 hN1
  have ht : 0 < eta_t := lt_of_lt_of_le hi hti
  have he0 : 0 ≤ eta_i / eta_t := le_of_lt (div_pos hi ht)
  have he1 : eta_i / eta_t ≤ 1 := (div_le_one ht).2 hti
  have hk : 0 ≤ 1 - eta_i / eta_t * (eta_i / eta_t)
      * (1 - refract_cosi I N * refract_cosi I N) := by
    rw [hc]
    have h1 : eta_i / eta_t * (eta_i / eta_t) ≤ 1 := by nlinarith
    have h2 : 0 ≤ eta_i / eta_t * (eta_i / eta_t) := mul_nonneg he0 he0
    have h3 : 0 ≤ 1 - -(I.dot N) * -(I.dot N) := by nlinarith
    have h4 : 1 - -(I.dot N) * -(I.dot N) ≤ 1 := by nlinarith [mul_self_nonneg (I.dot N)]
    nlinarith
  have hnn : ¬ refract_cosi I N < 0 := by
    rw [hc]
    linarith
  refine ⟨hk, ?_, spheres_refractive_index, ?_⟩
  · rw [refract_of_nonneg _ _ _ _ _ hnn, if_neg (not_lt.2 hk)]
  · simp [Material.default]

/-- Witness of C19: a ray entering glass (index 1.5) from air obliquely,
given by the unit vector `I = (0.6, -0.8, 0)` and the normal `N = (0, 1, 0)`. -/
theorem refract_no_sentinel_witness :
    (⟨0.6, -0.8, 0⟩ : Vec3 ℝ).norm Real.sqrt = 1 ∧ (⟨0, 1, 0⟩ : Vec3 ℝ).norm Real.sqrt = 1 ∧
    (⟨0.6, -0.8, 0⟩ : Vec3 ℝ).dot ⟨0, 1, 0⟩ ≤ 0 ∧
    (0 : ℝ) ≤ 1 - 1 / 1.5 * (1 / 1.5)
      * (1 - refract_cosi (⟨0.6, -0.8, 0⟩ : Vec3 ℝ) ⟨0, 1, 0⟩
          * refract_cosi (⟨0.6, -0.8, 0⟩ : Vec3 ℝ) ⟨0, 1, 0⟩) := by
  have h1 : (⟨0.6, -0.8, 0⟩ : Vec3 ℝ).norm Real.sqrt = 1 := by
    rw [norm_eq_iff _ (by norm_num)]
    norm_num [Vec3.dot_def]
  have h2 : (⟨0, 1, 0⟩ : Vec3 ℝ).norm Real.sqrt = 1 := by simp [Vec3.norm]
  have h3 : (⟨0.6, -0.8, 0⟩ : Vec3 ℝ).dot ⟨0, 1, 0⟩ ≤ 0 := by norm_num [Vec3.dot_def]
  exact ⟨h1, h2, h3,
    (refract_no_sentinel _ _ 1.5 1 h1 h2 h3 (by norm_num) (by norm_num)).1⟩

/-! ## Shading of a checkerboard hit -/

/-- The record `scene_intersect` returns when the accepted plane distance is below 1000 and below
every returned sphere distance. -/
theorem scene_intersect_of_plane_nearest (orig dir : Vec3 ℝ) (d : ℝ)
    (hpl : plane_hits orig dir = [d]) (hd : d < 1000)
    (hsph : ∀ t ∈ sphere_hits Real.sqrt orig dir, d < t) :
    scene_intersect Real.sqrt orig dir =
      (true, orig + dir.smul d, ⟨0, 1, 0⟩,
        { (Material.default : Material ℝ) with
          diffuse_color := checker_color (orig + dir.smul d) }) := by
  obtain ⟨l1, _, l3⟩ := scene_loop Real.sqrt orig dir spheres (scene_plane orig dir)
  rcases scene_plane_cases orig dir with ⟨e, _⟩ | ⟨e, est, _⟩
  · rw [e] at hpl
    exact absurd hpl (by simp)
  · have hde : d = -(orig.y + 4) / dir.y := by
      rw [e] at hpl
      simpa using hpl.symm
    rw [← hde] at est
    have hst : scene_nearest Real.sqrt orig dir = scene_plane orig dir := by
      rcases l3 with h | ⟨s, hs, hh, h⟩
      · exact h
      · exfalso
        have hmem := (mem_sphere_hits Real.sqrt orig dir _).2 ⟨s, hs, hh, rfl⟩
        have h1 := hsph _ hmem
        rw [h, est] at l1
        exact absurd h1 (not_lt.2 l1)
    unfold scene_intersect
    simp only [hst, est, hd, decide_True]

/-- The value of `cast_ray` on a hit with `depth <= 4`, the light loop written as two sums. -/
theorem cast_ray_of_hit (pow : ℝ → ℝ → ℝ) (orig dir : Vec3 ℝ) (depth : Int) (P N : Vec3 ℝ)
    (m : Material ℝ) (hd : depth ≤ 4)
    (hsi : scene_intersect Real.sqrt orig dir = (true, P, N, m)) :
    cast_ray Real.sqrt pow orig dir depth =
      shade Real.sqrt pow dir P N m
        (cast_ray Real.sqrt pow P ((reflect dir N).normalized Real.sqrt) (depth + 1))
        (cast_ray Real.sqrt pow P
          ((refract Real.sqrt dir N m.refractive_index 1).normalized Real.sqrt) (depth + 1)) := by
  have hnot : ¬ (depth > 4 ∨ (scene_intersect Real.sqrt orig dir).1 = false) := by
    rw [hsi]
    intro h
    rcases h with h | h
    · omega
    · exact absurd h (by simp)
  rw [cast_ray_eq, if_neg hnot, hsi]

/-- With the default albedo `(2, 0, 0, 0)` only the diffuse term of `shade` remains. -/
theorem shade_default (pow : ℝ → ℝ → ℝ) (dir P : Vec3 ℝ) (c reflect_color refract_color : Vec3 ℝ) :
    shade Real.sqrt pow dir P ⟨0, 1, 0⟩
        { (Material.default : Material ℝ) with diffuse_color := c } reflect_color refract_color
      = (c.smul (((lights : List (Vec3 ℝ)).map (fun L =>
          if (scene_intersect Real.sqrt P ((L - P).normalized Real.sqrt)).1 = true ∧
              ((scene_intersect Real.sqrt P ((L - P).normalized Real.sqrt)).2.1 - P).norm
                  Real.sqrt < (L - P).norm Real.sqrt
          then 0 else max 0 ((L - P).normalized Real.sqrt).y)).sum)).smul 2 := by
  have hy : ∀ v : Vec3 ℝ, v.dot ⟨0, 1, 0⟩ = v.y := by
    intro v
    simp [Vec3.dot_def]
  simp only [shade, light_fold, zero_add, Material.default, Matrix.cons_val_zero,
    Matrix.cons_val_one, Matrix.head_cons, Matrix.cons_val_two, Matrix.tail_cons,
    Matrix.cons_val_three, hy]
  ext <;> simp

/-- C20: a checkerboard hit uses the default material apart from its colour (albedo
`(2, 0, 0, 0)`, refractive index 1, specular exponent 0).  For every ray whose nearest hit is the
plane (the accepted plane distance `d` is below 1000 and below every sphere distance) and every
`depth <= 4`, `cast_ray` returns `tileColour * (sum over the unoccluded lights of
max(0, lightDir.y)) * 2`, with no specular, reflected or refracted contribution, and the result
is the same for every depth up to 4. -/
theorem cast_ray_checkerboard (pow : ℝ → ℝ → ℝ) (orig dir : Vec3 ℝ) (d : ℝ) (depth : Int)
    (hpl : plane_hits orig dir = [d]) (hd : d < 1000)
    (hsph : ∀ t ∈ sphere_hits Real.sqrt orig dir, d < t) (hdepth : depth ≤ 4) :
    (scene_intersect Real.sqrt orig dir).2.2.2 =
      { refractive_index := 1, albedo := ![2, 0, 0, 0],
        diffuse_color := checker_color (orig + dir.smul d), specular_exponent := 0 } ∧
    cast_ray Real.sqrt pow orig dir depth =
      ((checker_color (orig + dir.smul d)).smul
        (((lights : List (Vec3 ℝ)).map (fun L =>
          if (scene_intersect Real.sqrt (orig + dir.smul d)
                ((L - (orig + dir.smul d)).normalized Real.sqrt)).1 = true ∧
              ((scene_intersect Real.sqrt (orig + dir.smul d)
                  ((L - (orig + dir.smul d)).normalized Real.sqrt)).2.1
                - (orig + dir.smul d)).norm Real.sqrt
                < (L - (orig + dir.smul d)).norm Real.sqrt
          then 0
          else max 0 ((L - (orig + dir.smul d)).normalized Real.sqrt).y)).sum)).smul 2 ∧
    (∀ depth2 : Int, depth2 ≤ 4 →
      cast_ray Real.sqrt pow orig dir depth2 = cast_ray Real.sqrt pow orig dir depth) := by
  have hsi := scene_intersect_of_plane_nearest orig dir d hpl hd hsph
  have hval : ∀ k : Int, k ≤ 4 → cast_ray Real.sqrt pow orig dir k = _ := fun k hk => by
    rw [cast_ray_of_hit pow orig dir k _ _ _ hk hsi, shade_default]
  refine ⟨?_, hval depth hdepth, fun k hk => ?_⟩
  · rw [hsi]
    rfl
  · rw [hval k hk, hval depth hdepth]

/-- Witness of C20: the ray from `(8, 0, -25)` straight down, which misses every sphere and
meets the plane at distance 4; depths 0 and 4 give the same colour. -/
theorem cast_ray_checkerboard_witness :
    plane_hits (⟨8, 0, -25⟩ : Vec3 ℝ) ⟨0, -1, 0⟩ = [4] ∧ (4 : ℝ) < 1000 ∧
    (∀ t ∈ sphere_hits Real.sqrt (⟨8, 0, -25⟩ : Vec3 ℝ) ⟨0, -1, 0⟩, (4 : ℝ) < t) ∧
    (0 : Int) ≤ 4 ∧
    cast_ray Real.sqrt Real.rpow (⟨8, 0, -25⟩ : Vec3 ℝ) ⟨0, -1, 0⟩ 4
      = cast_ray Real.sqrt Real.rpow (⟨8, 0, -25⟩ : Vec3 ℝ) ⟨0, -1, 0⟩ 0 := by
  have h1 : plane_hits (⟨8, 0, -25⟩ : Vec3 ℝ) ⟨0, -1, 0⟩ = [4] := by
    unfold plane_hits
    norm_num [abs_lt]
  have h3 : ∀ t ∈ sphere_hits Real.sqrt (⟨8, 0, -25⟩ : Vec3 ℝ) ⟨0, -1, 0⟩, (4 : ℝ) < t := by
    intro t ht
    obtain ⟨s, hs, hh, _⟩ := (mem_sphere_hits _ _ _ _).1 ht
    rw [down_ray_misses_spheres s hs] at hh
    exact absurd hh (by simp)
  exact ⟨h1, by norm_num, h3, by norm_num,
    (cast_ray_checkerboard Real.rpow _ _ 4 0 h1 (by norm_num) h3 (by norm_num)).2.2 4
      (by norm_num)⟩

/-! ## Non-negative colours -/

theorem list_sum_nonneg_of (l : List ℝ) (h : ∀ x ∈ l, 0 ≤ x) : 0 ≤ l.sum := by
  induction l with
  | nil => simp
  | cons a rest ih =>
    rw [List.sum_cons]
    exact add_nonneg (h a (List.mem_cons_self _ _))
      (ih (fun x hx => h x (List.mem_cons_of_mem _ hx)))

theorem checker_color_nonneg (p : Vec3 ℝ) :
    0 ≤ (checker_color p).x ∧ 0 ≤ (checker_color p).y ∧ 0 ≤ (checker_color p).z := by
  unfold checker_color
  split_ifs <;> norm_num

/-- Every material of the scene's spheres has non-negative albedo weights and colour. -/
theorem spheres_material_nonneg : ∀ s ∈ (spheres : List (Sphere ℝ)),
    (∀ i : Fin 4, 0 ≤ s.material.albedo i) ∧ 0 ≤ s.material.diffuse_color.x ∧
      0 ≤ s.material.diffuse_color.y ∧ 0 ≤ s.material.diffuse_color.z := by
  intro s hs
  simp only [spheres, List.mem_cons, List.mem_singleton, List.not_mem_nil, or_false] at hs
  rcases hs with h | h | h | h | h | h | h | h <;> rw [h] <;>
    simp only [ivory, emerald, sapphire, pearl, gold, ruby, amethyst, turquoise] <;>
    refine ⟨fun i => ?_, by norm_num, by norm_num, by norm_num⟩ <;>
    fin_cases i <;> simp <;> norm_num

/-- The material `scene_intersect` returns has non-negative albedo weights and colour. -/
theorem scene_material_nonneg (orig dir : Vec3 ℝ) :
    (∀ i : Fin 4, 0 ≤ (scene_intersect Real.sqrt orig dir).2.2.2.albedo i) ∧
      0 ≤ (scene_intersect Real.sqrt orig dir).2.2.2.diffuse_color.x ∧
      0 ≤ (scene_intersect Real.sqrt orig dir).2.2.2.diffuse_color.y ∧
      0 ≤ (scene_intersect Real.sqrt orig dir).2.2.2.diffuse_color.z := by
  obtain ⟨_, _, l3⟩ := scene_loop Real.sqrt orig dir spheres (scene_plane orig dir)
  have hM : (scene_intersect Real.sqrt orig dir).2.2.2
      = (scene_nearest Real.sqrt orig dir).material := rfl
  have hdef : ∀ i : Fin 4, 0 ≤ (Material.default : Material ℝ).albedo i := by
    intro i
    fin_cases i <;> simp [Material.default]
  rw [hM]
  rcases l3 with h | ⟨s, hs, _, h⟩
  · have h' : scene_nearest Real.sqrt orig dir = scene_plane orig dir := h
    rw [h']
    rcases scene_plane_cases orig dir with ⟨_, est⟩ | ⟨_, est, _⟩
    · rw [est]
      exact ⟨hdef, by simp [Material.default], by simp [Material.default],
        by simp [Material.default]⟩
    · rw [est]
      exact ⟨hdef, checker_color_nonneg _⟩
  · have h' : scene_nearest Real.sqrt orig dir = _ := h
    rw [h']
    exact spheres_material_nonneg s hs

/-- The result of `shade` is non-negative when the material and the two traced colours are. -/
theorem shade_nonneg (dir P N : Vec3 ℝ) (m : Material ℝ) (c1 c2 : Vec3 ℝ)
    (hm : (∀ i : Fin 4, 0 ≤ m.albedo i) ∧ 0 ≤ m.diffuse_color.x ∧ 0 ≤ m.diffuse_color.y ∧
      0 ≤ m.diffuse_color.z)
    (h1 : 0 ≤ c1.x ∧ 0 ≤ c1.y ∧ 0 ≤ c1.z) (h2 : 0 ≤ c2.x ∧ 0 ≤ c2.y ∧ 0 ≤ c2.z) :
    0 ≤ (shade Real.sqrt Real.rpow dir P N m c1 c2).x ∧
      0 ≤ (shade Real.sqrt Real.rpow dir P N m c1 c2).y ∧
      0 ≤ (shade Real.sqrt Real.rpow dir P N m c1 c2).z := by
  obtain ⟨ha, hx, hy, hz⟩ := hm
  have ha0 := ha 0
  have ha1 := ha 1
  have ha2 := ha 2
  have ha3 := ha 3
  have hD : 0 ≤ ((lights : List (Vec3 ℝ)).map (fun L =>
      if (scene_intersect Real.sqrt P ((L - P).normalized Real.sqrt)).1 = true ∧
          ((scene_intersect Real.sqrt P ((L - P).normalized Real.sqrt)).2.1 - P).norm Real.sqrt
            < (L - P).norm Real.sqrt
      then 0 else max 0 (((L - P).normalized Real.sqrt).dot N))).sum := by
    apply list_sum_nonneg_of
    intro x hx
    obtain ⟨L, _, rfl⟩ := List.mem_map.1 hx
    split_ifs
    · exact le_refl _
    · exact le_max_left _ _
  have hS : 0 ≤ ((lights : List (Vec3 ℝ)).map (fun L =>
      if (scene_intersect Real.sqrt P ((L - P).normalized Real.sqrt)).1 = true ∧
          ((scene_intersect Real.sqrt P ((L - P).normalized Real.sqrt)).2.1 - P).norm Real.sqrt
            < (L - P).norm Real.sqrt
      then 0
      else Real.rpow (max 0 ((-(reflect (-((L - P).normalized Real.sqrt)) N)).dot dir))
        m.specular_exponent)).sum := by
    apply list_sum_nonneg_of
    intro x hx
    obtain ⟨L, _, rfl⟩ := List.mem_map.1 hx
    split_ifs
    · exact le_refl _
    · exact Real.rpow_nonneg (le_max_left _ _) _
  have hfold := light_fold Real.sqrt Real.rpow dir P N m lights (0, 0)
  have hli1 : 0 ≤ ((lights : List (Vec3 ℝ)).foldl
      (light_step Real.sqrt Real.rpow dir P N m) (0, 0)).1 := by
    rw [hfold]
    simpa using hD
  have hli2 : 0 ≤ ((lights : List (Vec3 ℝ)).foldl
      (light_step Real.sqrt Real.rpow dir P N m) (0, 0)).2 := by
    rw [hfold]
    simpa using hS
  unfold shade
  simp only
  generalize (lights : List (Vec3 ℝ)).foldl (light_step Real.sqrt Real.rpow dir P N m) (0, 0)
    = li at hli1 hli2
  simp only [Vec3.add_x, Vec3.add_y, Vec3.add_z, Vec3.smul_x, Vec3.smul_y, Vec3.smul_z]
  exact ⟨add_nonneg (add_nonneg (add_nonneg (mul_nonneg (mul_nonneg hx hli1) ha0)
        (mul_nonneg (mul_nonneg zero_le_one hli2) ha1)) (mul_nonneg h1.1 ha2))
      (mul_nonneg h2.1 ha3),
    add_nonneg (add_nonneg (add_nonneg (mul_nonneg (mul_nonneg hy hli1) ha0)
        (mul_nonneg (mul_nonneg zero_le_one hli2) ha1)) (mul_nonneg h1.2.1 ha2))
      (mul_nonneg h2.2.1 ha3),
    add_nonneg (add_nonneg (add_nonneg (mul_nonneg (mul_nonneg hz hli1) ha0)
        (mul_nonneg (mul_nonneg zero_le_one hli2) ha1)) (mul_nonneg h1.2.2 ha2))
      (mul_nonneg h2.2.2 ha3)⟩

/-- Induction behind C18: `k` bounds the number of recursion levels left. -/
theorem cast_ray_nonneg_aux :
    ∀ (k : Nat) (orig dir : Vec3 ℝ) (depth : Int), 5 - (k : Int) ≤ depth →
      0 ≤ (cast_ray Real.sqrt Real.rpow orig dir depth).x ∧
      0 ≤ (cast_ray Real.sqrt Real.rpow orig dir depth).y ∧
      0 ≤ (cast_ray Real.sqrt Real.rpow orig dir depth).z := by
  have hbg : 0 ≤ (background : Vec3 ℝ).x ∧ 0 ≤ (background : Vec3 ℝ).y ∧
      0 ≤ (background : Vec3 ℝ).z := by
    simp only [background]
    norm_num
  intro k
  induction k with
  | zero =>
    intro orig dir depth hk
    rw [cast_ray_of_deep _ _ _ _ _ (by push_cast at hk; omega)]
    exact hbg
  | succ n ih =>
    intro orig dir depth hk
    rw [cast_ray_eq]
    split_ifs with hc
    · exact hbg
    · have hk2 : 5 - (n : Int) ≤ depth + 1 := by push_cast at hk; omega
      exact shade_nonneg _ _ _ _ _ _ (scene_material_nonneg orig dir) (ih _ _ _ hk2)
        (ih _ _ _ hk2)

/-- C18: with the fixed scene, for every origin, every direction and every depth, each of the
three components of the result of `cast_ray` is non-negative; hence the tone-mapped value
`255*c/max(1, r, g, b)` of every channel lies in `[0, 255]` and the conversion to a byte does not
wrap: the byte is the truncated value itself. -/
theorem cast_ray_nonneg (orig dir : Vec3 ℝ) (depth : Int) :
    (0 ≤ (cast_ray Real.sqrt Real.rpow orig dir depth).x ∧
      0 ≤ (cast_ray Real.sqrt Real.rpow orig dir depth).y ∧
      0 ≤ (cast_ray Real.sqrt Real.rpow orig dir depth).z) ∧
    ∀ chan : Int,
      0 ≤ 255 * (cast_ray Real.sqrt Real.rpow orig dir depth).get chan
          / tone_max (cast_ray Real.sqrt Real.rpow orig dir depth) ∧
      255 * (cast_ray Real.sqrt Real.rpow orig dir depth).get chan
          / tone_max (cast_ray Real.sqrt Real.rpow orig dir depth) ≤ 255 ∧
      tone_byte (cast_ray Real.sqrt Real.rpow orig dir depth) chan
        = int_of (255 * (cast_ray Real.sqrt Real.rpow orig dir depth).get chan
            / tone_max (cast_ray Real.sqrt Real.rpow orig dir depth)) ∧
      0 ≤ tone_byte (cast_ray Real.sqrt Real.rpow orig dir depth) chan ∧
      tone_byte (cast_ray Real.sqrt Real.rpow orig dir depth) chan ≤ 255 := by
  have h := cast_ray_nonneg_aux (5 - depth).toNat orig dir depth (by omega)
  refine ⟨h, fun chan => ?_⟩
  generalize cast_ray Real.sqrt Real.rpow orig dir depth = c at h ⊢
  obtain ⟨hx, hy, hz⟩ := h
  have hb := tone_byte_eq_floor c hx hy hz chan
  have hM := tone_max_ge_one c
  have hc := get_le_tone_max c chan
  have h0 : 0 ≤ c.get chan := by
    rcases get_cases c chan with h | h | h <;> rw [h] <;> assumption
  have hv0 : 0 ≤ 255 * c.get chan / tone_max c := by positivity
  have hv1 : 255 * c.get chan / tone_max c ≤ 255 := by
    rw [div_le_iff₀ (by linarith)]
    nlinarith
  refine ⟨hv0, hv1, ?_, hb.2.1, hb.2.2⟩
  rw [hb.1]
  unfold int_of
  rw [if_pos hv0]

/-! ## Recursion depth of `cast_ray` -/

theorem sqrt_sixteen : Real.sqrt 16 = 4 := by
  rw [show (16 : ℝ) = 4 * 4 by norm_num]
  exact Real.sqrt_mul_self (by norm_num)

/-- The three rays used below, all on the line `y = 5`, `z = -18` through the centre of the
pearl sphere, miss every other sphere. -/
theorem axis_rays_miss (s : Sphere ℝ) (hs : s ∈ (spheres : List (Sphere ℝ)))
    (hne : s ≠ ⟨⟨7, 5, -18⟩, 4, pearl⟩) :
    ray_sphere_intersect Real.sqrt (⟨20, 5, -18⟩ : Vec3 ℝ) ⟨-1, 0, 0⟩ s = (false, 0) ∧
    ray_sphere_intersect Real.sqrt (⟨11, 5, -18⟩ : Vec3 ℝ) ⟨-1, 0, 0⟩ s = (false, 0) ∧
    ray_sphere_intersect Real.sqrt (⟨3, 5, -18⟩ : Vec3 ℝ) ⟨1, 0, 0⟩ s = (false, 0) := by
  unfold ray_sphere_intersect
  simp only [spheres, List.mem_cons, List.mem_singleton, List.not_mem_nil, or_false] at hs
  rcases hs with h | h | h | h | h | h | h | h <;>
    first
    | exact absurd h hne
    | (rw [h]
       simp only [Vec3.dot_def, Vec3.sub_x, Vec3.sub_y, Vec3.sub_z]
       rw [if_pos (by norm_num), if_pos (by norm_num), if_pos (by norm_num)]
       exact ⟨rfl, rfl, rfl⟩)

theorem pearl_ray0 :
    ray_sphere_intersect Real.sqrt (⟨20, 5, -18⟩ : Vec3 ℝ) ⟨-1, 0, 0⟩ ⟨⟨7, 5, -18⟩, 4, pearl⟩
      = (true, 9) := by
  unfold ray_sphere_intersect
  simp only [Vec3.dot_def, Vec3.sub_x, Vec3.sub_y, Vec3.sub_z]
  norm_num [sqrt_sixteen]

theorem pearl_ray1 :
    ray_sphere_intersect Real.sqrt (⟨11, 5, -18⟩ : Vec3 ℝ) ⟨-1, 0, 0⟩ ⟨⟨7, 5, -18⟩, 4, pearl⟩
      = (true, 8) := by
  unfold ray_sphere_intersect
  simp only [Vec3.dot_def, Vec3.sub_x, Vec3.sub_y, Vec3.sub_z]
  norm_num [sqrt_sixteen]

theorem pearl_ray2 :
    ray_sphere_intersect Real.sqrt (⟨3, 5, -18⟩ : Vec3 ℝ) ⟨1, 0, 0⟩ ⟨⟨7, 5, -18⟩, 4, pearl⟩
      = (true, 8) := by
  unfold ray_sphere_intersect
  simp only [Vec3.dot_def, Vec3.sub_x, Vec3.sub_y, Vec3.sub_z]
  norm_num [sqrt_sixteen]

/-- The record `scene_intersect` returns when the plane is not accepted and exactly one sphere
is hit, at a distance below 1000. -/
theorem scene_intersect_single (orig dir : Vec3 ℝ) (s : Sphere ℝ) (t : ℝ)
    (hs : s ∈ (spheres : List (Sphere ℝ))) (hpl : plane_hits orig dir = [])
    (hhit : ray_sphere_intersect Real.sqrt orig dir s = (true, t)) (ht : t < 1000)
    (hothers : ∀ s2 ∈ (spheres : List (Sphere ℝ)), s2 ≠ s →
      ray_sphere_intersect Real.sqrt orig dir s2 = (false, 0)) :
    scene_intersect Real.sqrt orig dir =
      (true, orig + dir.smul t, (orig + dir.smul t - s.center).normalized Real.sqrt,
        s.material) := by
  obtain ⟨_, l2, l3⟩ := scene_loop Real.sqrt orig dir spheres (scene_plane orig dir)
  have hst : scene_nearest Real.sqrt orig dir =
      ⟨t, orig + dir.smul t, (orig + dir.smul t - s.center).normalized Real.sqrt,
        s.material⟩ := by
    rcases l3 with h | ⟨s2, hs2, hh, h⟩
    · exfalso
      have h2 := l2 s hs (by rw [hhit])
      rw [h, hhit] at h2
      rcases scene_plane_cases orig dir with ⟨_, est⟩ | ⟨e, _⟩
      · rw [est] at h2
        have h3 : (1e10 : ℝ) ≤ t := h2
        norm_num at h3
        linarith
      · rw [e] at hpl
        exact absurd hpl (by simp)
    · have hs2s : s2 = s := by
        by_contra hne
        rw [hothers s2 hs2 hne] at hh
        exact absurd hh (by simp)
      rw [hs2s, hhit] at h
      exact h
  unfold scene_intersect
  simp only [hst, ht, decide_True]

theorem pearl_mem : (⟨⟨7, 5, -18⟩, 4, pearl⟩ : Sphere ℝ) ∈ (spheres : List (Sphere ℝ)) := by
  simp [spheres]

theorem plane_hits_of_horizontal (orig dir : Vec3 ℝ) (h : dir.y = 0) :
    plane_hits orig dir = [] := by
  unfold plane_hits
  rw [if_neg]
  intro hc
  rw [h] at hc
  norm_num at hc

theorem normalized_axis_pos : (⟨4, 0, 0⟩ : Vec3 ℝ).normalized Real.sqrt = ⟨1, 0, 0⟩ := by
  unfold Vec3.normalized Vec3.norm
  norm_num [sqrt_sixteen, Vec3.smul]

theorem normalized_axis_neg : (⟨-4, 0, 0⟩ : Vec3 ℝ).normalized Real.sqrt = ⟨-1, 0, 0⟩ := by
  unfold Vec3.normalized Vec3.norm
  norm_num [sqrt_sixteen, Vec3.smul]

/-- The camera-side ray: from `(20, 5, -18)` along `-x` the pearl sphere is entered at
`(11, 5, -18)`. -/
theorem scene_intersect_axis0 :
    scene_intersect Real.sqrt (⟨20, 5, -18⟩ : Vec3 ℝ) ⟨-1, 0, 0⟩ =
      (true, ⟨11, 5, -18⟩, ⟨1, 0, 0⟩, pearl) := by
  rw [scene_intersect_single _ _ ⟨⟨7, 5, -18⟩, 4, pearl⟩ 9 pearl_mem
    (plane_hits_of_horizontal _ _ rfl) pearl_ray0 (by norm_num)
    (fun s hs hne => (axis_rays_miss s hs hne).1)]
  have hp : (⟨20, 5, -18⟩ : Vec3 ℝ) + (⟨-1, 0, 0⟩ : Vec3 ℝ).smul 9 = ⟨11, 5, -18⟩ := by
    ext <;> norm_num
  have hn : (⟨11, 5, -18⟩ : Vec3 ℝ) - (⟨7, 5, -18⟩ : Vec3 ℝ) = ⟨4, 0, 0⟩ := by
    ext <;> norm_num
  rw [hp, hn, normalized_axis_pos]

/-- Inside the pearl sphere: from `(11, 5, -18)` along `-x` the far side is met at
`(3, 5, -18)`. -/
theorem scene_intersect_axis1 :
    scene_intersect Real.sqrt (⟨11, 5, -18⟩ : Vec3 ℝ) ⟨-1, 0, 0⟩ =
      (true, ⟨3, 5, -18⟩, ⟨-1, 0, 0⟩, pearl) := by
  rw [scene_intersect_single _ _ ⟨⟨7, 5, -18⟩, 4, pearl⟩ 8 pearl_mem
    (plane_hits_of_horizontal _ _ rfl) pearl_ray1 (by norm_num)
    (fun s hs hne => (axis_rays_miss s hs hne).2.1)]
  have hp : (⟨11, 5, -18⟩ : Vec3 ℝ) + (⟨-1, 0, 0⟩ : Vec3 ℝ).smul 8 = ⟨3, 5, -18⟩ := by
    ext <;> norm_num
  have hn : (⟨3, 5, -18⟩ : Vec3 ℝ) - (⟨7, 5, -18⟩ : Vec3 ℝ) = ⟨-4, 0, 0⟩ := by
    ext <;> norm_num
  rw [hp, hn, normalized_axis_neg]

/-- Inside the pearl sphere: from `(3, 5, -18)` along `+x` the near side is met at
`(11, 5, -18)`. -/
theorem scene_intersect_axis2 :
    scene_intersect Real.sqrt (⟨3, 5, -18⟩ : Vec3 ℝ) ⟨1, 0, 0⟩ =
      (true, ⟨11, 5, -18⟩, ⟨1, 0, 0⟩, pearl) := by
  rw [scene_intersect_single _ _ ⟨⟨7, 5, -18⟩, 4, pearl⟩ 8 pearl_mem
    (plane_hits_of_horizontal _ _ rfl) pearl_ray2 (by norm_num)
    (fun s hs hne => (axis_rays_miss s hs hne).2.2)]
  have hp : (⟨3, 5, -18⟩ : Vec3 ℝ) + (⟨1, 0, 0⟩ : Vec3 ℝ).smul 8 = ⟨11, 5, -18⟩ := by
    ext <;> norm_num
  have hn : (⟨11, 5, -18⟩ : Vec3 ℝ) - (⟨7, 5, -18⟩ : Vec3 ℝ) = ⟨4, 0, 0⟩ := by
    ext <;> norm_num
  rw [hp, hn, normalized_axis_pos]

/-- Reflection at normal incidence sends the ray back along the axis. -/
theorem reflect_axis (e : ℝ) (he : e * e = 1) :
    ((reflect (⟨-e, 0, 0⟩ : Vec3 ℝ) ⟨-e, 0, 0⟩).normalized Real.sqrt) = ⟨e, 0, 0⟩ ∧
    ((reflect (⟨e, 0, 0⟩ : Vec3 ℝ) ⟨e, 0, 0⟩).normalized Real.sqrt) = ⟨-e, 0, 0⟩ := by
  have h1 : reflect (⟨-e, 0, 0⟩ : Vec3 ℝ) ⟨-e, 0, 0⟩ = ⟨e, 0, 0⟩ := by
    unfold reflect
    ext <;> simp [Vec3.dot_def]
    linear_combination (2 * e) * he
  have h2 : reflect (⟨e, 0, 0⟩ : Vec3 ℝ) ⟨e, 0, 0⟩ = ⟨-e, 0, 0⟩ := by
    unfold reflect
    ext <;> simp [Vec3.dot_def]
    linear_combination (-2 * e) * he
  have hn1 : (⟨e, 0, 0⟩ : Vec3 ℝ).norm Real.sqrt = 1 := by
    rw [norm_eq_iff _ (by norm_num)]
    simp [Vec3.dot_def, he]
  have hn2 : (⟨-e, 0, 0⟩ : Vec3 ℝ).norm Real.sqrt = 1 := by
    rw [norm_eq_iff _ (by norm_num)]
    simp [Vec3.dot_def, he]
  rw [h1, h2]
  unfold Vec3.normalized
  rw [hn1, hn2]
  constructor <;> ext <;> simp

/-- Refraction into the pearl sphere at normal incidence keeps the direction `-x`. -/
theorem refract_axis :
    (refract Real.sqrt (⟨-1, 0, 0⟩ : Vec3 ℝ) ⟨1, 0, 0⟩
      (pearl : Material ℝ).refractive_index 1).normalized Real.sqrt = ⟨-1, 0, 0⟩ := by
  have hc : refract_cosi (⟨-1, 0, 0⟩ : Vec3 ℝ) ⟨1, 0, 0⟩ = 1 := by
    simp [refract_cosi, Vec3.dot_def]
  have hr : refract Real.sqrt (⟨-1, 0, 0⟩ : Vec3 ℝ) ⟨1, 0, 0⟩
      (pearl : Material ℝ).refractive_index 1 = ⟨-1, 0, 0⟩ := by
    rw [refract_of_nonneg _ _ _ _ _ (by rw [hc]; norm_num), hc]
    simp only [pearl]
    rw [if_neg (by norm_num)]
    ext <;> norm_num
  have hn : (⟨-1, 0, 0⟩ : Vec3 ℝ).norm Real.sqrt = 1 := by simp [Vec3.norm]
  rw [hr]
  unfold Vec3.normalized
  rw [hn]
  ext <;> simp

section Depths

variable {F : Type} [LinearOrderedField F] [FloorRing F]

/-- The recursive equation of `cast_ray_depths`. -/
theorem cast_ray_depths_eq (sqrt : F → F) (orig dir : Vec3 F) (depth : Int) :
    cast_ray_depths sqrt orig dir depth =
      depth ::
        if depth > 4 ∨ (scene_intersect sqrt orig dir).1 = false then []
        else
          cast_ray_depths sqrt (scene_intersect sqrt orig dir).2.1
              ((reflect dir (scene_intersect sqrt orig dir).2.2.1).normalized sqrt) (depth + 1)
            ++ cast_ray_depths sqrt (scene_intersect sqrt orig dir).2.1
              ((refract sqrt dir (scene_intersect sqrt orig dir).2.2.1
                (scene_intersect sqrt orig dir).2.2.2.refractive_index 1).normalized sqrt)
              (depth + 1) := by
  rw [cast_ray_depths]
  by_cases h : depth > 4 ∨ (scene_intersect sqrt orig dir).1 = false
  · simp only [h, dite_true, if_true]
  · simp only [h, dite_false, if_false]

theorem cast_ray_depths_of_deep (sqrt : F → F) (orig dir : Vec3 F) (depth : Int)
    (h : 4 < depth) : cast_ray_depths sqrt orig dir depth = [depth] := by
  rw [cast_ray_depths_eq, if_pos (Or.inl h)]

theorem mem_cast_ray_depths_self (sqrt : F → F) (orig dir : Vec3 F) (depth : Int) :
    depth ∈ cast_ray_depths sqrt orig dir depth := by
  rw [cast_ray_depths_eq]
  exact List.mem_cons_self _ _

/-- An invocation made for the reflected ray is an invocation of the enclosing call. -/
theorem mem_cast_ray_depths_reflect (sqrt : F → F) (orig dir : Vec3 F) (depth : Int)
    (P N : Vec3 F) (m : Material F) (j : Int) (hd : depth ≤ 4)
    (hsi : scene_intersect sqrt orig dir = (true, P, N, m))
    (hj : j ∈ cast_ray_depths sqrt P ((reflect dir N).normalized sqrt) (depth + 1)) :
    j ∈ cast_ray_depths sqrt orig dir depth := by
  have hnot : ¬ (depth > 4 ∨ (scene_intersect sqrt orig dir).1 = false) := by
    rw [hsi]
    intro h
    rcases h with h | h
    · omega
    · exact absurd h (by simp)
  rw [cast_ray_depths_eq, if_neg hnot, hsi]
  exact List.mem_cons_of_mem _ (List.mem_append_left _ hj)

/-- An invocation made for the refracted ray is an invocation of the enclosing call. -/
theorem mem_cast_ray_depths_refract (sqrt : F → F) (orig dir : Vec3 F) (depth : Int)
    (P N : Vec3 F) (m : Material F) (j : Int) (hd : depth ≤ 4)
    (hsi : scene_intersect sqrt orig dir = (true, P, N, m))
    (hj : j ∈ cast_ray_depths sqrt P
      ((refract sqrt dir N m.refractive_index 1).normalized sqrt) (depth + 1)) :
    j ∈ cast_ray_depths sqrt orig dir depth := by
  have hnot : ¬ (depth > 4 ∨ (scene_intersect sqrt orig dir).1 = false) := by
    rw [hsi]
    intro h
    rcases h with h | h
    · omega
    · exact absurd h (by simp)
  rw [cast_ray_depths_eq, if_neg hnot, hsi]
  exact List.mem_cons_of_mem _ (List.mem_append_right _ hj)

/-- Every invocation below a call at `depth` has a depth between `depth` and
`max depth 5`. -/
theorem cast_ray_depths_range (sqrt : F → F) :
    ∀ (k : Nat) (orig dir : Vec3 F) (depth : Int), 5 - (k : Int) ≤ depth →
      ∀ j ∈ cast_ray_depths sqrt orig dir depth, depth ≤ j ∧ j ≤ max depth 5 := by
  intro k
  induction k with
  | zero =>
    intro orig dir depth hk j hj
    rw [cast_ray_depths_of_deep _ _ _ _ (by push_cast at hk; omega)] at hj
    rw [List.mem_singleton.1 hj]
    exact ⟨le_refl _, le_max_left _ _⟩
  | succ n ih =>
    intro orig dir depth hk j hj
    rw [cast_ray_depths_eq] at hj
    rcases List.mem_cons.1 hj with h | h
    · rw [h]
      exact ⟨le_refl _, le_max_left _ _⟩
    · split_ifs at h with hc
      · exact absurd h (List.not_mem_nil j)
      · have hd : depth ≤ 4 := by
          by_contra hgt
          exact hc (Or.inl (by omega))
        have hk2 : 5 - (n : Int) ≤ depth + 1 := by push_cast at hk; omega
        have hmax1 : max (depth + 1) 5 = 5 := max_eq_right (by omega)
        have hmax : max depth 5 = 5 := max_eq_right (by omega)
        rw [hmax]
        rcases List.mem_append.1 h with h | h
        · have := ih _ _ _ hk2 j h
          rw [hmax1] at this
          exact ⟨by omega, this.2⟩
        · have := ih _ _ _ hk2 j h
          rw [hmax1] at this
          exact ⟨by omega, this.2⟩

/-- C13 (as amended): the recursion depth of `cast_ray` is bounded by 6 levels.  Starting from a
call at depth 0, every invocation of `cast_ray` has a depth argument between 0 and 5, so a chain
of nested invocations consists of the initial call plus at most five recursive levels; an
invocation with a depth argument greater than 4 makes no further invocation. -/
theorem cast_ray_depth_bound (sqrt : F → F) (orig dir : Vec3 F) :
    (∀ j ∈ cast_ray_depths sqrt orig dir 0, 0 ≤ j ∧ j ≤ 5) ∧
    (∀ (P d : Vec3 F) (depth : Int), 4 < depth → cast_ray_depths sqrt P d depth = [depth]) := by
  refine ⟨fun j hj => ?_, fun P d depth h => cast_ray_depths_of_deep sqrt P d depth h⟩
  have := cast_ray_depths_range sqrt 5 orig dir 0 (by norm_num) j hj
  rw [max_eq_right (by norm_num)] at this
  exact this

end Depths

/-- Counterexample to C13 as stated: the ray from `(20, 5, -18)` along `-x` hits the pearl
sphere at `(11, 5, -18)` at depth 0; the call for the refracted ray (depth 1) crosses the sphere
to `(3, 5, -18)`, and the calls for the reflected rays at depths 2, 3 and 4 go back and forth
between `(3, 5, -18)` and `(11, 5, -18)`; the hit at depth 4 invokes `cast_ray` with depth 5. -/
theorem cast_ray_depth_five_reached :
    (5 : Int) ∈ cast_ray_depths Real.sqrt (⟨20, 5, -18⟩ : Vec3 ℝ) ⟨-1, 0, 0⟩ 0 ∧ (4 : Int) < 5 := by
  have hr1 := (reflect_axis 1 (by norm_num)).1
  have hr2 := (reflect_axis 1 (by norm_num)).2
  have h5 : (5 : Int) ∈ cast_ray_depths Real.sqrt (⟨11, 5, -18⟩ : Vec3 ℝ)
      ((reflect (⟨1, 0, 0⟩ : Vec3 ℝ) ⟨1, 0, 0⟩).normalized Real.sqrt) (4 + 1) :=
    mem_cast_ray_depths_self _ _ _ _
  have h4 : (5 : Int) ∈ cast_ray_depths Real.sqrt (⟨3, 5, -18⟩ : Vec3 ℝ) ⟨1, 0, 0⟩ 4 :=
    mem_cast_ray_depths_reflect _ _ _ 4 _ _ _ 5 (by norm_num) scene_intersect_axis2 h5
  have h3 : (5 : Int) ∈ cast_ray_depths Real.sqrt (⟨11, 5, -18⟩ : Vec3 ℝ) ⟨-1, 0, 0⟩ 3 := by
    apply mem_cast_ray_depths_reflect _ _ _ 3 _ _ _ 5 (by norm_num) scene_intersect_axis1
    rw [hr1]
    exact h4
  have h2 : (5 : Int) ∈ cast_ray_depths Real.sqrt (⟨3, 5, -18⟩ : Vec3 ℝ) ⟨1, 0, 0⟩ 2 := by
    apply mem_cast_ray_depths_reflect _ _ _ 2 _ _ _ 5 (by norm_num) scene_intersect_axis2
    rw [hr2]
    exact h3
  have h1 : (5 : Int) ∈ cast_ray_depths Real.sqrt (⟨11, 5, -18⟩ : Vec3 ℝ) ⟨-1, 0, 0⟩ 1 := by
    apply mem_cast_ray_depths_reflect _ _ _ 1 _ _ _ 5 (by norm_num) scene_intersect_axis1
    rw [hr1]
    exact h2
  refine ⟨?_, by norm_num⟩
  apply mem_cast_ray_depths_refract _ _ _ 0 _ _ _ 5 (by norm_num) scene_intersect_axis0
  rw [refract_axis]
  exact h1

/-- Witness of C13 (as amended): a call at depth 5 for the camera ray along `-z` makes no further
invocation. -/
theorem cast_ray_depth_bound_witness :
    (4 : Int) < 5 ∧ cast_ray_depths Real.sqrt (0 : Vec3 ℝ) ⟨0, 0, -1⟩ 5 = [5] :=
  ⟨by norm_num,
    (cast_ray_depth_bound Real.sqrt (0 : Vec3 ℝ) ⟨0, 0, -1⟩).2 0 ⟨0, 0, -1⟩ 5 (by norm_num)⟩

/-! ## Evaluations in binary32 -/

theorem b32_lit_example : B32.lit (3/10) = B32.Fl.fin (10066330 / 33554432) := by decide!

end Raytracer
